import Mathlib

/-!
Shallow embedding of the real-time chat coordination core
(src/server/socket/socketHandler.js together with the model methods it calls
in src/server/models/Message.js and src/server/models/Room.js).

JavaScript Maps are modelled as insertion-ordered association lists, JavaScript
Sets as insertion-ordered duplicate-free lists, and string truthiness is made
explicit. Each handler is a pure function from the handler state (in-memory
maps, transport-level room membership, live sockets, and the persistent store)
to a new state together with the list of emitted events.
-/

set_option maxRecDepth 40000

namespace ChatCore

/-- Truthiness of a JavaScript string: the empty string is falsy. -/
def truthy (s : String) : Bool := s ≠ ""

/-- Truthiness of a possibly-absent JavaScript string value. -/
def otruthy : Option String → Bool
  | none => false
  | some s => truthy s

/-- Characters String.prototype.trim removes (whitespace and line terminators). -/
def isJsWhitespace (ch : Char) : Bool :=
  ch = ' ' ∨ ch = '\t' ∨ ch = '\n' ∨ ch = '\r' ∨ ch = '\x0b' ∨ ch = '\x0c'

/-- String.prototype.trim, computed on the character list. -/
def jsTrim (s : String) : String :=
  String.mk (((s.data.dropWhile isJsWhitespace).reverse.dropWhile isJsWhitespace).reverse)

/-- String length as a character count. -/
def jsLength (s : String) : Nat := s.data.length

/-- Map.get on a JavaScript Map modelled as an association list. -/
def mapGet {α : Type} : List (String × α) → String → Option α
  | [], _ => none
  | p :: t, k => if p.1 = k then some p.2 else mapGet t k

/-- Map.set: overwrite the existing entry in place, or append a new binding. -/
def mapSet {α : Type} : List (String × α) → String → α → List (String × α)
  | [], k, v => [(k, v)]
  | p :: t, k, v => if p.1 = k then (k, v) :: t else p :: mapSet t k v

/-- Map.delete. -/
def mapDelete {α : Type} (m : List (String × α)) (k : String) : List (String × α) :=
  m.filter (fun p => p.1 ≠ k)

/-- Set.add on a JavaScript Set modelled as an insertion-ordered list. -/
def setAdd (s : List String) (x : String) : List String :=
  if x ∈ s then s else s ++ [x]

/-- Set.delete. -/
def setDelete (s : List String) (x : String) : List String :=
  s.filter (fun y => y ≠ x)

/-- Value stored in the connectedUsers registry: socketId, username, currentRoom. -/
structure UserInfo where
  socketId : String
  username : String
  currentRoom : Option String
deriving DecidableEq

/-- A live socket connection; userId and username are attached by the auth middleware. -/
structure Conn where
  sockId : String
  userId : String
  username : String
deriving DecidableEq

/-- Persisted room record (the fields the socket layer uses). -/
structure RoomRec where
  id : String
  name : String
  isActive : Bool
  participants : List String
deriving DecidableEq

/-- Persisted message record (uuid and timestamp omitted: they are fresh
nondeterministic values no claim refers to). -/
structure MessageRec where
  roomId : String
  senderId : String
  senderUsername : String
  content : String
  messageType : String
deriving DecidableEq

/-- Participant entry produced by getRoomParticipantsList. -/
structure Participant where
  userId : String
  username : String
  isOnline : Bool
deriving DecidableEq

/-- Emission target: socket.emit, socket.to(room).emit, io.to(room).emit. -/
inductive Target
  | socket (sid : String)
  | roomExcept (roomId : String) (sid : String)
  | room (roomId : String)
deriving DecidableEq

/-- Outbound events emitted by the socket handler. -/
inductive Event
  | connectedEv (tgt : Target) (userId username : String)
  | errorEv (tgt : Target) (message : String) (details : List String)
  | userJoinedEv (tgt : Target) (userId username : String)
  | userLeftEv (tgt : Target) (userId username : String)
  | participantsUpdateEv (tgt : Target) (roomId : String) (ps : List Participant)
  | roomJoinedEv (tgt : Target) (roomId roomName : String) (ps : List Participant)
  | roomLeftEv (tgt : Target) (roomId : String)
  | newMessageEv (tgt : Target) (m : MessageRec)
  | roomParticipantsEv (tgt : Target) (roomId : String) (ps : List Participant)
deriving DecidableEq

/-- State of the SocketHandler plus the transport layer and the persistent store:
connectedUsers is keyed by userId, roomParticipants by roomId, transportRooms
records socket.io room membership (roomId to socketIds), liveSockets the open
sockets, rooms and messages the persistent store tables. -/
structure SHState where
  connectedUsers : List (String × UserInfo)
  roomParticipants : List (String × List String)
  transportRooms : List (String × List String)
  liveSockets : List Conn
  rooms : List RoomRec
  messages : List MessageRec
deriving DecidableEq

/-- Room.findById over the rooms table. -/
def Room.findById (rooms : List RoomRec) (rid : String) : Option RoomRec :=
  rooms.find? (fun r => r.id = rid)

/-- Overwrite the participants field of the stored room record rid (Room.save
restricted to the field the socket layer changes). -/
def dbSetRoomParticipants (rooms : List RoomRec) (rid : String) (ps : List String) :
    List RoomRec :=
  rooms.map (fun r => if r.id = rid then { r with participants := ps } else r)

/-- Room.addParticipant as called on the in-memory snapshot snap: push and save
only when the snapshot does not already list the user. -/
def Room.addParticipant (rooms : List RoomRec) (snap : RoomRec) (uid : String) :
    List RoomRec :=
  if uid ∈ snap.participants then rooms
  else dbSetRoomParticipants rooms snap.id (snap.participants ++ [uid])

/-- Room.removeParticipant as called on the in-memory snapshot snap: splice out
the first occurrence and save only when present. -/
def Room.removeParticipant (rooms : List RoomRec) (snap : RoomRec) (uid : String) :
    List RoomRec :=
  if uid ∈ snap.participants then
    dbSetRoomParticipants rooms snap.id (snap.participants.erase uid)
  else rooms

/-- Message.validateContent for a string argument (the socket layer always
passes a string). -/
def Message.validateContent (content : String) : List String :=
  if ¬ truthy content then ["Message content is required"]
  else
    (if jsLength (jsTrim content) < 1 then ["Message content cannot be empty"] else []) ++
    (if jsLength content > 1000 then
      ["Message content must be no more than 1000 characters long"] else [])

/-- Message.validate for the string-typed fields Message.create receives from
the socket layer. -/
def Message.validate (roomId senderId senderUsername content : String)
    (messageType : Option String) : List String :=
  (if ¬ truthy roomId then ["Room ID is required"] else []) ++
  (if ¬ truthy senderId then ["Sender ID is required"] else []) ++
  (if ¬ truthy senderUsername then ["Sender username is required"] else []) ++
  Message.validateContent content ++
  (match messageType with
   | none => []
   | some t =>
     if ¬ truthy t then []
     else if t = "message" ∨ t = "notification" then []
     else ["Message type must be one of: message, notification"])

/-- Message.create: validate, then build the stored record with trimmed content
and default messageType "message". -/
def Message.create (roomId senderId senderUsername content : String)
    (messageType : Option String) : Except (List String) MessageRec :=
  let errors := Message.validate roomId senderId senderUsername content messageType
  if errors = [] then
    Except.ok
      ⟨roomId, senderId, senderUsername, jsTrim content,
        match messageType with
        | none => "message"
        | some t => if truthy t then t else "message"⟩
  else Except.error errors

/-- Live participant set of a room: roomParticipants.get(roomId) or the empty set. -/
def partsOf (st : SHState) (rid : String) : List String :=
  (mapGet st.roomParticipants rid).getD []

/-- SocketHandler.getRoomParticipantsList: resolve each member of
roomParticipants[roomId] against the connectedUsers registry, silently skipping
userIds that have no registry entry. -/
def getRoomParticipantsList (st : SHState) (rid : String) : List Participant :=
  (partsOf st rid).filterMap (fun uid =>
    (mapGet st.connectedUsers uid).map (fun info => ⟨uid, info.username, true⟩))

/-- socket.join(roomId) at the transport level. -/
def transportJoin (tr : List (String × List String)) (rid sid : String) :
    List (String × List String) :=
  mapSet tr rid (setAdd ((mapGet tr rid).getD []) sid)

/-- socket.leave(roomId) at the transport level. -/
def transportLeave (tr : List (String × List String)) (rid sid : String) :
    List (String × List String) :=
  mapSet tr rid (setDelete ((mapGet tr rid).getD []) sid)

/-- Sockets currently in the transport room rid. -/
def transportMembers (st : SHState) (rid : String) : List String :=
  (mapGet st.transportRooms rid).getD []

/-- Clear currentRoom on the registry entry for uid when it strictly equals rid
(the check userInfo.currentRoom === roomId in leaveRoom). -/
def clearCurrentRoom (cu : List (String × UserInfo)) (uid rid : String) :
    List (String × UserInfo) :=
  match mapGet cu uid with
  | some info =>
    if info.currentRoom = some rid then mapSet cu uid { info with currentRoom := none }
    else cu
  | none => cu

/-- Set currentRoom on the registry entry for uid when the entry exists
(the check if userInfo in handleJoinRoom). -/
def setCurrentRoom (cu : List (String × UserInfo)) (uid rid : String) :
    List (String × UserInfo) :=
  match mapGet cu uid with
  | some info => mapSet cu uid { info with currentRoom := some rid }
  | none => cu

/-- Remove uid from roomParticipants[rid], deleting the index entry entirely
when the resulting set is empty. -/
def partsRemove (rp : List (String × List String)) (rid uid : String) :
    List (String × List String) :=
  match mapGet rp rid with
  | some s =>
    let s2 := setDelete s uid
    if s2 = [] then mapDelete rp rid else mapSet rp rid s2
  | none => rp

/-- Ensure roomParticipants[rid] exists and add uid to it. -/
def partsAdd (rp : List (String × List String)) (rid uid : String) :
    List (String × List String) :=
  mapSet rp rid (setAdd ((mapGet rp rid).getD []) uid)

/-- SocketHandler.leaveRoom: transport leave, clear currentRoom when it matches,
remove from the live participant index, best-effort persistence update, persist
the leave notification, notify the remaining members, ack the leaver. The
system notification always passes Message.validate because usernames are
bounded far below the 1000-character content limit, so its creation is modelled
as always succeeding. -/
def leaveRoom (st : SHState) (c : Conn) (roomId : Option String) :
    SHState × List Event :=
  match roomId with
  | none => (st, [])
  | some rid =>
    if ¬ truthy rid then (st, [])
    else
      let st1 := { st with transportRooms := transportLeave st.transportRooms rid c.sockId }
      let st2 := { st1 with connectedUsers := clearCurrentRoom st1.connectedUsers c.userId rid }
      let st3 := { st2 with roomParticipants := partsRemove st2.roomParticipants rid c.userId }
      match Room.findById st3.rooms rid with
      | some room =>
        let st4 := { st3 with rooms := Room.removeParticipant st3.rooms room c.userId }
        let note : MessageRec :=
          ⟨rid, "system", "System", jsTrim (c.username ++ " left the room"), "notification"⟩
        let st5 := { st4 with messages := st4.messages ++ [note] }
        let ps := getRoomParticipantsList st5 rid
        (st5,
          [Event.userLeftEv (Target.roomExcept rid c.sockId) c.userId c.username,
           Event.participantsUpdateEv (Target.roomExcept rid c.sockId) rid ps,
           Event.roomLeftEv (Target.socket c.sockId) rid])
      | none =>
        (st3, [Event.roomLeftEv (Target.socket c.sockId) rid])

/-- SocketHandler.handleLeaveRoom: destructure data.roomId and delegate. -/
def handleLeaveRoom (st : SHState) (c : Conn) (roomId : Option String) :
    SHState × List Event :=
  leaveRoom st c roomId

/-- SocketHandler.handleJoinRoom: validate the room, leave the current room
first when there is one, then join, update the registry and the participant
index, persist membership and the join notification, and emit the join events. -/
def handleJoinRoom (st : SHState) (c : Conn) (roomId : Option String) :
    SHState × List Event :=
  if ¬ otruthy roomId then
    (st, [Event.errorEv (Target.socket c.sockId) "Room ID is required" []])
  else
    let rid := roomId.getD ""
    match Room.findById st.rooms rid with
    | none => (st, [Event.errorEv (Target.socket c.sockId) "Room not found" []])
    | some room =>
      if ¬ room.isActive then
        (st, [Event.errorEv (Target.socket c.sockId) "Room is not active" []])
      else
        let prev : SHState × List Event :=
          match mapGet st.connectedUsers c.userId with
          | some info =>
            if otruthy info.currentRoom then leaveRoom st c info.currentRoom else (st, [])
          | none => (st, [])
        let st1 := prev.1
        let st2 := { st1 with transportRooms := transportJoin st1.transportRooms rid c.sockId }
        let st3 := { st2 with connectedUsers := setCurrentRoom st2.connectedUsers c.userId rid }
        let st4 := { st3 with roomParticipants := partsAdd st3.roomParticipants rid c.userId }
        let st5 := { st4 with rooms := Room.addParticipant st4.rooms room c.userId }
        let note : MessageRec :=
          ⟨rid, "system", "System", jsTrim (c.username ++ " joined the room"), "notification"⟩
        let st6 := { st5 with messages := st5.messages ++ [note] }
        let ps := getRoomParticipantsList st6 rid
        (st6,
          prev.2 ++
          [Event.userJoinedEv (Target.roomExcept rid c.sockId) c.userId c.username,
           Event.participantsUpdateEv (Target.room rid) rid ps,
           Event.roomJoinedEv (Target.socket c.sockId) rid room.name ps])

/-- SocketHandler.handleSendMessage. The persistOk flag models whether the
database create call inside Message.create succeeds once validation passed. -/
def handleSendMessage (st : SHState) (c : Conn) (roomId content : Option String)
    (persistOk : Bool) : SHState × List Event :=
  if ¬ otruthy roomId ∨ ¬ otruthy content then
    (st, [Event.errorEv (Target.socket c.sockId) "Room ID and message content are required" []])
  else
    let rid := roomId.getD ""
    let cont := content.getD ""
    match mapGet st.connectedUsers c.userId with
    | none =>
      (st, [Event.errorEv (Target.socket c.sockId) "You must be in the room to send messages" []])
    | some info =>
      if info.currentRoom ≠ some rid then
        (st, [Event.errorEv (Target.socket c.sockId) "You must be in the room to send messages" []])
      else
        match Room.findById st.rooms rid with
        | none =>
          (st, [Event.errorEv (Target.socket c.sockId) "Room not found or inactive" []])
        | some room =>
          if ¬ room.isActive then
            (st, [Event.errorEv (Target.socket c.sockId) "Room not found or inactive" []])
          else
            match Message.create rid c.userId c.username (jsTrim cont) none with
            | Except.error details =>
              (st, [Event.errorEv (Target.socket c.sockId) "Message validation failed" details])
            | Except.ok msg =>
              if persistOk then
                ({ st with messages := st.messages ++ [msg] },
                 [Event.newMessageEv (Target.room rid) msg])
              else
                (st, [Event.errorEv (Target.socket c.sockId) "Failed to send message" []])

/-- SocketHandler.handleGetRoomParticipants. -/
def handleGetRoomParticipants (st : SHState) (c : Conn) (roomId : Option String) :
    SHState × List Event :=
  if ¬ otruthy roomId then
    (st, [Event.errorEv (Target.socket c.sockId) "Room ID is required" []])
  else
    let rid := roomId.getD ""
    (st, [Event.roomParticipantsEv (Target.socket c.sockId) rid (getRoomParticipantsList st rid)])

/-- SocketHandler.handleConnection: record the connection in the userId-keyed
registry (a later connection of the same user overwrites the entry) and confirm.
Tracking the socket in liveSockets models the transport accepting it. -/
def handleConnection (st : SHState) (c : Conn) : SHState × List Event :=
  ({ st with
      connectedUsers := mapSet st.connectedUsers c.userId ⟨c.sockId, c.username, none⟩,
      liveSockets := st.liveSockets ++ [c] },
   [Event.connectedEv (Target.socket c.sockId) c.userId c.username])

/-- SocketHandler.handleDisconnect, together with the transport-level removal of
the closed socket from liveSockets and from every transport room. -/
def handleDisconnect (st : SHState) (c : Conn) : SHState × List Event :=
  let prev : SHState × List Event :=
    match mapGet st.connectedUsers c.userId with
    | some info =>
      if otruthy info.currentRoom then leaveRoom st c info.currentRoom else (st, [])
    | none => (st, [])
  let st1 := prev.1
  let st2 := { st1 with connectedUsers := mapDelete st1.connectedUsers c.userId }
  let st3 := { st2 with
      liveSockets := st2.liveSockets.filter (fun c2 => c2.sockId ≠ c.sockId),
      transportRooms := st2.transportRooms.map (fun p => (p.1, setDelete p.2 c.sockId)) }
  (st3, prev.2)

/-- Persisted user record fields the auth middleware uses. -/
structure UserRec where
  id : String
  username : String
deriving DecidableEq

/-- Token extraction in setupMiddleware: handshake.auth.token with truthiness
fallback to handshake.query.token. -/
def extractToken (authToken queryToken : Option String) : Option String :=
  if otruthy authToken then authToken else queryToken

/-- SocketHandler.setupMiddleware: authenticate the handshake; none means the
connection is refused with an authentication error before any handler runs.
verify models jwtUtils.verifyToken (none = throw), findUser models User.findById. -/
def setupMiddleware (verify : String → Option String) (findUser : String → Option UserRec)
    (authToken queryToken : Option String) : Option UserRec :=
  match extractToken authToken queryToken with
  | none => none
  | some t =>
    if ¬ truthy t then none
    else
      match verify t with
      | none => none
      | some uid =>
        match findUser uid with
        | none => none
        | some user => some user

/-- Client-driven operations against the socket layer. -/
inductive Op
  | connect (authToken queryToken : Option String) (sid : String)
  | joinRoom (sid : String) (roomId : Option String)
  | leaveRoomOp (sid : String) (roomId : Option String)
  | sendMessage (sid : String) (roomId content : Option String) (persistOk : Bool)
  | disconnect (sid : String)
deriving DecidableEq

/-- Find the live socket with the given id. -/
def findSocket (st : SHState) (sid : String) : Option Conn :=
  st.liveSockets.find? (fun c => c.sockId = sid)

/-- Execute one operation. A connect is refused when the middleware fails; event
handlers only run for sockets that are actually live, and the transport never
reuses a live socket id. -/
def exec (verify : String → Option String) (findUser : String → Option UserRec)
    (st : SHState) (op : Op) : SHState × List Event :=
  match op with
  | Op.connect a q sid =>
    match setupMiddleware verify findUser a q with
    | none => (st, [])
    | some user =>
      match findSocket st sid with
      | some _ => (st, [])
      | none => handleConnection st ⟨sid, user.id, user.username⟩
  | Op.joinRoom sid rid =>
    match findSocket st sid with
    | none => (st, [])
    | some c => handleJoinRoom st c rid
  | Op.leaveRoomOp sid rid =>
    match findSocket st sid with
    | none => (st, [])
    | some c => handleLeaveRoom st c rid
  | Op.sendMessage sid rid cont persistOk =>
    match findSocket st sid with
    | none => (st, [])
    | some c => handleSendMessage st c rid cont persistOk
  | Op.disconnect sid =>
    match findSocket st sid with
    | none => (st, [])
    | some c => handleDisconnect st c

/-- Initial handler state over a given persistent room table. -/
def initState (rooms : List RoomRec) : SHState := ⟨[], [], [], [], rooms, []⟩

/-- Run a sequence of operations from the initial state. -/
def run (verify : String → Option String) (findUser : String → Option UserRec)
    (rooms : List RoomRec) (ops : List Op) : SHState :=
  List.foldl (fun s op => (exec verify findUser s op).1) (initState rooms) ops

/-- currentRoomId of a live connection: the implementation keeps this state only
in the userId-keyed registry entry, so every connection of a user shares it. -/
def connCurrentRoomId (st : SHState) (c : Conn) : Option String :=
  match mapGet st.connectedUsers c.userId with
  | some info => info.currentRoom
  | none => none

/-- The central invariant of the spec at one user and room: membership in
RoomParticipants[r] holds exactly when some live connection of that user has
currentRoomId r. -/
def membershipInvariantAt (st : SHState) (u r : String) : Prop :=
  u ∈ partsOf st r ↔ ∃ c ∈ st.liveSockets, c.userId = u ∧ connCurrentRoomId st c = some r

/-- Sockets an emission target resolves to, reading transport room membership
from the given state. -/
def targetSockets (st : SHState) : Target → List String
  | Target.socket sid => [sid]
  | Target.roomExcept rid sid => (transportMembers st rid).filter (fun s => s ≠ sid)
  | Target.room rid => transportMembers st rid

/-- Target of an event. -/
def eventTarget : Event → Target
  | Event.connectedEv t _ _ => t
  | Event.errorEv t _ _ => t
  | Event.userJoinedEv t _ _ => t
  | Event.userLeftEv t _ _ => t
  | Event.participantsUpdateEv t _ _ => t
  | Event.roomJoinedEv t _ _ _ => t
  | Event.roomLeftEv t _ => t
  | Event.newMessageEv t _ => t
  | Event.roomParticipantsEv t _ _ => t

/-- Whether an event is delivered to the socket sid. -/
def deliveredTo (st : SHState) (e : Event) (sid : String) : Bool :=
  sid ∈ targetSockets st (eventTarget e)

/-- Number of events among evs that satisfy p and are delivered to sid. -/
def countDelivered (st : SHState) (evs : List Event) (p : Event → Bool) (sid : String) : Nat :=
  (evs.filter (fun e => p e && deliveredTo st e sid)).length

/-- Event-kind selectors. -/
def isNewMessage : Event → Bool
  | Event.newMessageEv _ _ => true
  | _ => false

def isUserLeft : Event → Bool
  | Event.userLeftEv _ _ _ => true
  | _ => false

def isParticipantsUpdate : Event → Bool
  | Event.participantsUpdateEv _ _ _ => true
  | _ => false

/-- Exact condition under which handleSendMessage accepts a request: payload
fields present and truthy, the sender currently in the room, the room present
and active, Message.validate passing on the trimmed content, and the
persistence call succeeding. -/
def sendOk (st : SHState) (c : Conn) (roomId content : Option String)
    (persistOk : Bool) : Prop :=
  match roomId, content with
  | some rid, some cont =>
    truthy rid = true ∧ truthy cont = true ∧
    (∃ info, mapGet st.connectedUsers c.userId = some info ∧ info.currentRoom = some rid) ∧
    (∃ room, Room.findById st.rooms rid = some room ∧ room.isActive = true) ∧
    Message.validate rid c.userId c.username (jsTrim cont) none = [] ∧
    persistOk = true
  | _, _ => False

/-- Inductive invariant for states where each user has at most one live
connection: the registry domain matches the live users, live sockets have
distinct socket ids and distinct user ids, participant-index membership mirrors
the registry currentRoom fields, and currentRoom is never the falsy string. -/
structure Inv (st : SHState) : Prop where
  reg_live : ∀ u : String,
    (mapGet st.connectedUsers u).isSome = true ↔ ∃ c ∈ st.liveSockets, c.userId = u
  sock_uniq : ∀ c1 ∈ st.liveSockets, ∀ c2 ∈ st.liveSockets, c1.sockId = c2.sockId → c1 = c2
  user_uniq : ∀ c1 ∈ st.liveSockets, ∀ c2 ∈ st.liveSockets, c1.userId = c2.userId → c1 = c2
  part_iff : ∀ u r : String, u ∈ partsOf st r ↔
    ∃ info, mapGet st.connectedUsers u = some info ∧ info.currentRoom = some r
  cur_truthy : ∀ u info, mapGet st.connectedUsers u = some info → info.currentRoom ≠ some ""

/-- Reachability when every user keeps at most one concurrent live connection:
a connect step is taken only when no live socket already carries the
authenticated userId. All other operations are unrestricted. -/
inductive ReachableSC (verify : String → Option String) (findUser : String → Option UserRec) :
    SHState → Prop
  | init (rooms : List RoomRec) : ReachableSC verify findUser (initState rooms)
  | connect {st : SHState} (a q : Option String) (sid : String) :
    ReachableSC verify findUser st →
    (∀ user, setupMiddleware verify findUser a q = some user →
      ∀ c ∈ st.liveSockets, c.userId ≠ user.id) →
    ReachableSC verify findUser (exec verify findUser st (Op.connect a q sid)).1
  | join {st : SHState} (sid : String) (rid : Option String) :
    ReachableSC verify findUser st →
    ReachableSC verify findUser (exec verify findUser st (Op.joinRoom sid rid)).1
  | leave {st : SHState} (sid : String) (rid : Option String) :
    ReachableSC verify findUser st →
    ReachableSC verify findUser (exec verify findUser st (Op.leaveRoomOp sid rid)).1
  | send {st : SHState} (sid : String) (rid cont : Option String) (persistOk : Bool) :
    ReachableSC verify findUser st →
    ReachableSC verify findUser (exec verify findUser st (Op.sendMessage sid rid cont persistOk)).1
  | disconnect {st : SHState} (sid : String) :
    ReachableSC verify findUser st →
    ReachableSC verify findUser (exec verify findUser st (Op.disconnect sid)).1

/-- Token oracle for concrete traces: maps the token of each test user. -/
def demoVerify : String → Option String :=
  fun t => if t = "tokU" then some "u" else if t = "tokV" then some "v" else none

/-- User store for concrete traces. -/
def demoFindUser : String → Option UserRec :=
  fun uid =>
    if uid = "u" then some ⟨"u", "alice"⟩
    else if uid = "v" then some ⟨"v", "bob"⟩
    else none

/-- Two active persisted rooms for concrete traces. -/
def demoRooms : List RoomRec := [⟨"A", "roomA", true, []⟩, ⟨"B", "roomB", true, []⟩]

/-- Trace refuting the central invariant under concurrent connections of one
user: the first connection joins room A, a second connection of the same user
then overwrites the userId-keyed registry entry and joins room B. -/
def clobberTrace : List Op :=
  [Op.connect (some "tokU") none "s1",
   Op.joinRoom "s1" (some "A"),
   Op.connect (some "tokU") none "s2",
   Op.joinRoom "s2" (some "B")]

/-- State after the clobber trace; the last operation executed is a join-room. -/
def clobberState : SHState := run demoVerify demoFindUser demoRooms clobberTrace

/-- Concrete handler state used to instantiate theorems: alice is connected on
socket s1 and joined to room A, bob is connected on socket s2 and joined to A
as well. -/
def demoState : SHState :=
  ⟨[("u", ⟨"s1", "alice", some "A"⟩), ("v", ⟨"s2", "bob", some "A"⟩)],
   [("A", ["u", "v"])],
   [("A", ["s1", "s2"])],
   [⟨"s1", "u", "alice"⟩, ⟨"s2", "v", "bob"⟩],
   [⟨"A", "roomA", true, ["u", "v"]⟩, ⟨"B", "roomB", true, []⟩],
   []⟩

/-- Rooms table with a third active room, for the room-switch counterexample. -/
def demoRoomsABC : List RoomRec :=
  [⟨"A", "roomA", true, []⟩, ⟨"B", "roomB", true, []⟩, ⟨"C", "roomC", true, []⟩]

/-- State reached by connect(s1, u), join(s1, A), connect(s2, u), join(s2, B):
the second connection of user u sits in room B while the membership of A,
created through the first connection, is orphaned by the userId-keyed registry
overwrite. -/
def c2PreState : SHState :=
  run demoVerify demoFindUser demoRoomsABC
    [Op.connect (some "tokU") none "s1", Op.joinRoom "s1" (some "A"),
     Op.connect (some "tokU") none "s2", Op.joinRoom "s2" (some "B")]

/-! Helper lemmas about the Map and Set embeddings. -/

theorem mapGet_mapSet {α : Type} (m : List (String × α)) (k k' : String) (v : α) :
    mapGet (mapSet m k v) k' = if k' = k then some v else mapGet m k' := by
  induction m with
  | nil =>
    rcases eq_or_ne k' k with hk | hk
    · subst hk; simp [mapSet, mapGet]
    · simp [mapSet, mapGet, Ne.symm hk, hk]
  | cons p t ih =>
    by_cases hpk : p.1 = k
    · have hms : mapSet (p :: t) k v = (k, v) :: t := by simp [mapSet, hpk]
      rcases eq_or_ne k' k with hk | hk
      · subst hk; simp [hms, mapGet]
      · have hpk' : ¬ p.1 = k' := by rw [hpk]; exact Ne.symm hk
        simp [hms, mapGet, Ne.symm hk, hk, hpk']
    · have hms : mapSet (p :: t) k v = p :: mapSet t k v := by simp [mapSet, hpk]
      rcases eq_or_ne k' k with hk | hk
      · subst hk
        simp [hms, mapGet, hpk, ih]
      · simp [hms, mapGet, ih, hk]

theorem mapGet_mapDelete {α : Type} (m : List (String × α)) (k k' : String) :
    mapGet (mapDelete m k) k' = if k' = k then none else mapGet m k' := by
  induction m with
  | nil => simp [mapDelete, mapGet]
  | cons p t ih =>
    by_cases hpk : p.1 = k
    · have hfilter : mapDelete (p :: t) k = mapDelete t k := by
        simp [mapDelete, hpk]
      rcases eq_or_ne k' k with hk | hk
      · subst hk; rw [hfilter, ih]; simp
      · have hpk' : ¬ p.1 = k' := by rw [hpk]; exact Ne.symm hk
        rw [hfilter, ih]
        simp [hk, mapGet, hpk']
    · have hfilter : mapDelete (p :: t) k = p :: mapDelete t k := by
        simp [mapDelete, hpk]
      rcases eq_or_ne k' k with hk | hk
      · subst hk
        rw [hfilter]; simp [mapGet, hpk, ih]
      · rw [hfilter]
        simp [mapGet, ih, hk]

theorem mem_setAdd (s : List String) (x y : String) :
    y ∈ setAdd s x ↔ y ∈ s ∨ y = x := by
  unfold setAdd
  by_cases hx : x ∈ s
  · simp only [hx, if_true]
    constructor
    · exact Or.inl
    · rintro (h | rfl)
      · exact h
      · exact hx
  · simp [hx]

theorem mem_setDelete (s : List String) (x y : String) :
    y ∈ setDelete s x ↔ y ∈ s ∧ y ≠ x := by
  simp [setDelete]

/-! Membership lemmas for the room participant index. -/

theorem mem_partsAdd (rp : List (String × List String)) (rid uid u r : String) :
    u ∈ (mapGet (partsAdd rp rid uid) r).getD [] ↔
      u ∈ (mapGet rp r).getD [] ∨ (r = rid ∧ u = uid) := by
  unfold partsAdd
  rw [mapGet_mapSet]
  rcases eq_or_ne r rid with hr | hr
  · subst hr
    simp [mem_setAdd]
  · simp [hr]

theorem mem_partsRemove (rp : List (String × List String)) (rid uid u r : String) :
    u ∈ (mapGet (partsRemove rp rid uid) r).getD [] ↔
      u ∈ (mapGet rp r).getD [] ∧ ¬(r = rid ∧ u = uid) := by
  unfold partsRemove
  cases hrp : mapGet rp rid with
  | none =>
    rcases eq_or_ne r rid with hr | hr
    · subst hr; simp [hrp]
    · simp [hr]
  | some s =>
    by_cases hemp : setDelete s uid = []
    · simp only [hemp, if_true]
      rw [mapGet_mapDelete]
      rcases eq_or_ne r rid with hr | hr
      · subst hr
        rw [if_pos rfl]
        simp only [Option.getD_none, List.not_mem_nil, false_iff, hrp, Option.getD_some]
        rintro ⟨hmem, hne⟩
        apply hne
        refine ⟨trivial, ?_⟩
        by_contra hu
        have hmem2 : u ∈ setDelete s uid := (mem_setDelete s uid u).2 ⟨hmem, hu⟩
        rw [hemp] at hmem2
        simp at hmem2
      · simp [hr]
    · simp only [hemp, if_false]
      rw [mapGet_mapSet]
      rcases eq_or_ne r rid with hr | hr
      · subst hr
        simp [hrp, mem_setDelete]
      · simp [hr]

/-! Registry update lemmas. -/

theorem clearCurrentRoom_get_ne (cu : List (String × UserInfo)) (uid rid u : String)
    (h : u ≠ uid) : mapGet (clearCurrentRoom cu uid rid) u = mapGet cu u := by
  unfold clearCurrentRoom
  cases mapGet cu uid with
  | none => rfl
  | some info =>
    by_cases hc : info.currentRoom = some rid
    · simp only [hc, if_true]
      rw [mapGet_mapSet]
      simp [h]
    · simp [hc]

theorem clearCurrentRoom_get_self (cu : List (String × UserInfo)) (uid rid : String) :
    mapGet (clearCurrentRoom cu uid rid) uid =
      (mapGet cu uid).map (fun info =>
        if info.currentRoom = some rid then { info with currentRoom := none } else info) := by
  unfold clearCurrentRoom
  cases hcu : mapGet cu uid with
  | none => simp [hcu]
  | some info =>
    by_cases hc : info.currentRoom = some rid
    · simp only [hc, if_true]
      rw [mapGet_mapSet]
      simp [hc]
    · simp [hc, hcu]

theorem setCurrentRoom_get_ne (cu : List (String × UserInfo)) (uid rid u : String)
    (h : u ≠ uid) : mapGet (setCurrentRoom cu uid rid) u = mapGet cu u := by
  unfold setCurrentRoom
  cases mapGet cu uid with
  | none => rfl
  | some info =>
    rw [mapGet_mapSet]
    simp [h]

theorem setCurrentRoom_get_self (cu : List (String × UserInfo)) (uid rid : String) :
    mapGet (setCurrentRoom cu uid rid) uid =
      (mapGet cu uid).map (fun info => { info with currentRoom := some rid }) := by
  unfold setCurrentRoom
  cases hcu : mapGet cu uid with
  | none => simp [hcu]
  | some info =>
    rw [mapGet_mapSet]
    simp [hcu]

theorem clearCurrentRoom_isSome (cu : List (String × UserInfo)) (uid rid u : String) :
    (mapGet (clearCurrentRoom cu uid rid) u).isSome = (mapGet cu u).isSome := by
  rcases eq_or_ne u uid with h | h
  · subst h
    rw [clearCurrentRoom_get_self]
    cases mapGet cu u <;> simp
  · rw [clearCurrentRoom_get_ne _ _ _ _ h]

theorem setCurrentRoom_isSome (cu : List (String × UserInfo)) (uid rid u : String) :
    (mapGet (setCurrentRoom cu uid rid) u).isSome = (mapGet cu u).isSome := by
  rcases eq_or_ne u uid with h | h
  · subst h
    rw [setCurrentRoom_get_self]
    cases mapGet cu u <;> simp
  · rw [setCurrentRoom_get_ne _ _ _ _ h]

/-! Effect of leaveRoom on the handler state, component by component. -/

theorem leaveRoom_state (st : SHState) (c : Conn) (rid : String) (h : truthy rid = true) :
    (leaveRoom st c (some rid)).1.connectedUsers =
        clearCurrentRoom st.connectedUsers c.userId rid ∧
      (leaveRoom st c (some rid)).1.roomParticipants =
        partsRemove st.roomParticipants rid c.userId ∧
      (leaveRoom st c (some rid)).1.liveSockets = st.liveSockets ∧
      (leaveRoom st c (some rid)).1.transportRooms =
        transportLeave st.transportRooms rid c.sockId := by
  unfold leaveRoom
  simp only [h, not_true_eq_false, if_false, Bool.true_eq_false]
  cases Room.findById st.rooms rid <;> simp

/-- A leaveRoom call never makes the emitted event list shorter than the ack. -/
theorem leaveRoom_roomLeft_mem (st : SHState) (c : Conn) (rid : String)
    (h : truthy rid = true) :
    Event.roomLeftEv (Target.socket c.sockId) rid ∈ (leaveRoom st c (some rid)).2 := by
  unfold leaveRoom
  simp only [h, not_true_eq_false, if_false, Bool.true_eq_false]
  cases Room.findById st.rooms rid <;> simp

/-- handleSendMessage never touches the registry, the participant index, the
transport rooms, the live sockets or the rooms table. -/
theorem handleSendMessage_frame (st : SHState) (c : Conn) (roomId content : Option String)
    (persistOk : Bool) :
    (handleSendMessage st c roomId content persistOk).1.connectedUsers = st.connectedUsers ∧
      (handleSendMessage st c roomId content persistOk).1.roomParticipants =
        st.roomParticipants ∧
      (handleSendMessage st c roomId content persistOk).1.transportRooms =
        st.transportRooms ∧
      (handleSendMessage st c roomId content persistOk).1.liveSockets = st.liveSockets ∧
      (handleSendMessage st c roomId content persistOk).1.rooms = st.rooms := by
  unfold handleSendMessage
  dsimp only
  repeat' split
  all_goals exact ⟨rfl, rfl, rfl, rfl, rfl⟩

/-! String lemmas for the JavaScript trim embedding. -/

theorem jsTrim_data (s : String) :
    (jsTrim s).data =
      List.rdropWhile isJsWhitespace (List.dropWhile isJsWhitespace s.data) := by
  simp [jsTrim, List.rdropWhile]

theorem dropWhile_trimmed {α : Type} (p : α → Bool) (l : List α) :
    List.dropWhile p (List.rdropWhile p (List.dropWhile p l)) =
      List.rdropWhile p (List.dropWhile p l) := by
  rw [List.dropWhile_eq_self_iff]
  intro hl
  have hpre := List.rdropWhile_prefix p (List.dropWhile p l)
  have hlen : 0 < (List.dropWhile p l).length := lt_of_lt_of_le hl hpre.length_le
  have hget := List.dropWhile_get_zero_not p l hlen
  have heq : (List.rdropWhile p (List.dropWhile p l)).get ⟨0, hl⟩ =
      (List.dropWhile p l).get ⟨0, hlen⟩ := List.IsPrefix.get_eq hpre hl
  rw [heq]
  exact hget

theorem jsTrim_idem (s : String) : jsTrim (jsTrim s) = jsTrim s := by
  have h1 := jsTrim_data s
  have h2 := jsTrim_data (jsTrim s)
  cases hJ : jsTrim (jsTrim s) with
  | mk d1 =>
    cases hK : jsTrim s with
    | mk d2 =>
      have hd : d1 = d2 := by
        have e1 : d1 = (jsTrim (jsTrim s)).data := by rw [hJ]
        have e2 : d2 = (jsTrim s).data := by rw [hK]
        rw [e1, e2, h2, h1, dropWhile_trimmed, List.rdropWhile_idempotent, ← h1]
      rw [hd]

theorem ne_empty_iff_data (s : String) : s ≠ "" ↔ s.data ≠ [] := by
  cases s with
  | mk d =>
    constructor
    · intro h hd
      subst hd
      exact h rfl
    · intro h he
      exact h (congrArg String.data he)

theorem truthy_true_iff (s : String) : truthy s = true ↔ s.data ≠ [] := by
  unfold truthy
  rw [decide_eq_true_eq]
  exact ne_empty_iff_data s

theorem jsLength_eq_zero_iff (s : String) : jsLength s = 0 ↔ s.data = [] := by
  unfold jsLength
  exact List.length_eq_zero

theorem mapGet_partsRemove_ne (rp : List (String × List String)) (rid uid r : String)
    (h : r ≠ rid) : mapGet (partsRemove rp rid uid) r = mapGet rp r := by
  unfold partsRemove
  cases mapGet rp rid with
  | none => rfl
  | some s =>
    by_cases hemp : setDelete s uid = []
    · simp only [hemp, if_true]
      rw [mapGet_mapDelete]
      simp [h]
    · simp only [hemp, if_false]
      rw [mapGet_mapSet]
      simp [h]

/-- C10: when a connection whose currentRoom is A processes a leave-room request
for a different room r, its registry entry and RoomParticipants[A] are left
unchanged, yet the handler still emits a room-left success acknowledgment for r
to the requesting connection. -/
theorem c10_leave_foreign_room_still_acks (st : SHState) (c : Conn) (info : UserInfo)
    (A r : String)
    (hreg : mapGet st.connectedUsers c.userId = some info)
    (hcur : info.currentRoom = some A)
    (hr : truthy r = true)
    (hne : r ≠ A) :
    mapGet (handleLeaveRoom st c (some r)).1.connectedUsers c.userId = some info ∧
      mapGet (handleLeaveRoom st c (some r)).1.roomParticipants A =
        mapGet st.roomParticipants A ∧
      Event.roomLeftEv (Target.socket c.sockId) r ∈ (handleLeaveRoom st c (some r)).2 := by
  have hstate := leaveRoom_state st c r hr
  have hh : handleLeaveRoom st c (some r) = leaveRoom st c (some r) := rfl
  refine ⟨?_, ?_, ?_⟩
  · rw [hh, hstate.1, clearCurrentRoom_get_self, hreg]
    simp [hcur, Ne.symm hne]
  · rw [hh, hstate.2.1]
    exact mapGet_partsRemove_ne st.roomParticipants r c.userId A (Ne.symm hne)
  · rw [hh]
    exact leaveRoom_roomLeft_mem st c r hr

/-- C10 witness: alice is in room A on socket s1; a leave-room request for room
B keeps her registry entry and the participants of A intact and still acks B. -/
theorem c10_witness :
    mapGet demoState.connectedUsers "u" = some ⟨"s1", "alice", some "A"⟩ ∧
      truthy "B" = true ∧ "B" ≠ "A" ∧
      (mapGet (handleLeaveRoom demoState ⟨"s1", "u", "alice"⟩ (some "B")).1.connectedUsers "u" =
          some ⟨"s1", "alice", some "A"⟩ ∧
        mapGet (handleLeaveRoom demoState ⟨"s1", "u", "alice"⟩ (some "B")).1.roomParticipants "A" =
          mapGet demoState.roomParticipants "A" ∧
        Event.roomLeftEv (Target.socket "s1") "B" ∈
          (handleLeaveRoom demoState ⟨"s1", "u", "alice"⟩ (some "B")).2) :=
  ⟨by decide, by decide, by decide,
    c10_leave_foreign_room_still_acks demoState ⟨"s1", "u", "alice"⟩ ⟨"s1", "alice", some "A"⟩
      "A" "B" (by decide) (by decide) (by decide) (by decide)⟩

/-- C7: when the leaving user is the last member of RoomParticipants[roomId],
leaveRoom deletes the index entry entirely; and leaveRoom never leaves an empty
participant set behind for any room. -/
theorem c7_last_leave_deletes_entry (st : SHState) (c : Conn) (rid : String)
    (hr : truthy rid = true) :
    (∀ s : List String, mapGet st.roomParticipants rid = some s →
        setDelete s c.userId = [] →
        mapGet (leaveRoom st c (some rid)).1.roomParticipants rid = none) ∧
      ((∀ r l, mapGet st.roomParticipants r = some l → l ≠ []) →
        ∀ r l, mapGet (leaveRoom st c (some rid)).1.roomParticipants r = some l → l ≠ []) := by
  have hstate := leaveRoom_state st c rid hr
  constructor
  · intro s hs hdel
    rw [hstate.2.1]
    unfold partsRemove
    rw [hs]
    simp only [hdel, if_true]
    rw [mapGet_mapDelete]
    simp
  · intro hclean r l hl
    rw [hstate.2.1] at hl
    unfold partsRemove at hl
    cases hrid : mapGet st.roomParticipants rid with
    | none =>
      rw [hrid] at hl
      exact hclean r l hl
    | some s =>
      rw [hrid] at hl
      by_cases hemp : setDelete s c.userId = []
      · simp only [hemp, if_true] at hl
        rw [mapGet_mapDelete] at hl
        rcases eq_or_ne r rid with hrr | hrr
        · simp [hrr] at hl
        · simp only [hrr, if_false] at hl
          exact hclean r l hl
      · simp only [hemp, if_false] at hl
        rw [mapGet_mapSet] at hl
        rcases eq_or_ne r rid with hrr | hrr
        · simp only [hrr, if_true] at hl
          cases hl
          exact hemp
        · simp only [hrr, if_false] at hl
          exact hclean r l hl

/-- C7 witness: bob leaves room B where he is the only member; the entry for B
is deleted from the participant index entirely. -/
theorem c7_witness :
    mapGet (leaveRoom
        ⟨[("v", ⟨"s2", "bob", some "B"⟩)], [("B", ["v"])], [("B", ["s2"])],
          [⟨"s2", "v", "bob"⟩], [⟨"B", "roomB", true, ["v"]⟩], []⟩
        ⟨"s2", "v", "bob"⟩ (some "B")).1.roomParticipants "B" = none :=
  (c7_last_leave_deletes_entry
      ⟨[("v", ⟨"s2", "bob", some "B"⟩)], [("B", ["v"])], [("B", ["s2"])],
        [⟨"s2", "v", "bob"⟩], [⟨"B", "roomB", true, ["v"]⟩], []⟩
      ⟨"s2", "v", "bob"⟩ "B" (by decide)).1 ["v"] (by decide) (by decide)

theorem create_ok_validate (roomId senderId senderUsername content : String)
    (messageType : Option String) (msg : MessageRec)
    (h : Message.create roomId senderId senderUsername content messageType = Except.ok msg) :
    Message.validate roomId senderId senderUsername content messageType = [] := by
  by_cases he : Message.validate roomId senderId senderUsername content messageType = []
  · exact he
  · simp [Message.create, he] at h

/-- C5: every rejected send-message request leaves the entire handler state
unchanged (so no Message is persisted and the registry, participant index,
transport rooms and live sockets are untouched), produces no new-message
broadcast, and emits exactly one error event addressed to the requesting
socket only. -/
theorem c5_rejected_send_no_side_effects (st : SHState) (c : Conn)
    (roomId content : Option String) (persistOk : Bool)
    (hrej : ¬ sendOk st c roomId content persistOk) :
    (handleSendMessage st c roomId content persistOk).1 = st ∧
      ∃ m d, (handleSendMessage st c roomId content persistOk).2 =
        [Event.errorEv (Target.socket c.sockId) m d] := by
  unfold handleSendMessage
  by_cases h1 : ¬ otruthy roomId ∨ ¬ otruthy content
  · rw [if_pos h1]
    exact ⟨rfl, _, _, rfl⟩
  · rw [if_neg h1]
    push_neg at h1
    obtain ⟨hro, hco⟩ := h1
    cases roomId with
    | none => simp [otruthy] at hro
    | some rid =>
      cases content with
      | none => simp [otruthy] at hco
      | some cont =>
        have hrt : truthy rid = true := by simpa [otruthy] using hro
        have hct : truthy cont = true := by simpa [otruthy] using hco
        dsimp only [Option.getD_some]
        cases hreg : mapGet st.connectedUsers c.userId with
        | none =>
          exact ⟨rfl, _, _, rfl⟩
        | some info =>
          dsimp only
          by_cases hcr : info.currentRoom ≠ some rid
          · rw [if_pos hcr]
            exact ⟨rfl, _, _, rfl⟩
          · rw [if_neg hcr]
            push_neg at hcr
            cases hrm : Room.findById st.rooms rid with
            | none =>
              exact ⟨rfl, _, _, rfl⟩
            | some room =>
              dsimp only
              by_cases hact : room.isActive = true
              · rw [if_neg (not_not_intro hact)]
                cases hcm : Message.create rid c.userId c.username (jsTrim cont) none with
                | error details =>
                  exact ⟨rfl, _, _, rfl⟩
                | ok msg =>
                  dsimp only
                  cases persistOk with
                  | false => exact ⟨rfl, _, _, rfl⟩
                  | true =>
                    exfalso
                    exact hrej ⟨hrt, hct, ⟨info, hreg, hcr⟩, ⟨room, hrm, hact⟩,
                      create_ok_validate rid c.userId c.username (jsTrim cont) none msg hcm, rfl⟩
              · rw [if_pos hact]
                exact ⟨rfl, _, _, rfl⟩

/-- C5 witness: sending the empty content from a joined connection is rejected
with a single error event to the sender and the state is fully unchanged. -/
theorem c5_witness :
    (handleSendMessage demoState ⟨"s1", "u", "alice"⟩ (some "A") (some "") true).1 =
        demoState ∧
      ∃ m d, (handleSendMessage demoState ⟨"s1", "u", "alice"⟩ (some "A") (some "") true).2 =
        [Event.errorEv (Target.socket "s1") m d] :=
  c5_rejected_send_no_side_effects demoState ⟨"s1", "u", "alice"⟩ (some "A") (some "") true
    (fun h => absurd h.2.1 (by decide))

theorem validate_none_eq_validateContent (roomId senderId senderUsername content : String)
    (h1 : truthy roomId = true) (h2 : truthy senderId = true)
    (h3 : truthy senderUsername = true) :
    Message.validate roomId senderId senderUsername content none =
      Message.validateContent content := by
  unfold Message.validate
  simp [h1, h2, h3]

theorem validateContent_jsTrim_eq_nil_iff (s : String) :
    Message.validateContent (jsTrim s) = [] ↔
      ¬(jsLength (jsTrim s) = 0 ∨ jsLength (jsTrim s) > 1000) := by
  unfold Message.validateContent
  by_cases ht : truthy (jsTrim s) = true
  · have hpos : jsLength (jsTrim s) ≠ 0 := by
      intro h0
      rw [truthy_true_iff] at ht
      exact ht ((jsLength_eq_zero_iff _).1 h0)
    simp only [ht, not_true_eq_false, if_false, Bool.true_eq_false, jsTrim_idem]
    by_cases hbig : jsLength (jsTrim s) > 1000
    · simp [hbig, hpos]
    · have hge : ¬ jsLength (jsTrim s) < 1 := by omega
      simp [hbig, hpos, hge]
  · have hzero : jsLength (jsTrim s) = 0 := by
      rw [jsLength_eq_zero_iff]
      by_contra hd
      exact ht ((truthy_true_iff _).2 hd)
    simp [ht, hzero]

/-- C4: once the presence and membership checks of handleSendMessage pass, the
request is rejected with the VALIDATION_ERROR error event exactly when the
trimmed content length is zero or exceeds 1000 characters; in particular a
trimmed content of exactly 1000 characters passes this boundary and one of
1001 characters fails it. -/
theorem c4_validation_boundary (st : SHState) (c : Conn) (info : UserInfo) (room : RoomRec)
    (rid cont : String) (persistOk : Bool)
    (hrt : truthy rid = true) (hct : truthy cont = true)
    (hreg : mapGet st.connectedUsers c.userId = some info)
    (hcur : info.currentRoom = some rid)
    (hrm : Room.findById st.rooms rid = some room)
    (hact : room.isActive = true)
    (huid : truthy c.userId = true) (huname : truthy c.username = true) :
    (∃ d, (handleSendMessage st c (some rid) (some cont) persistOk).2 =
        [Event.errorEv (Target.socket c.sockId) "Message validation failed" d]) ↔
      (jsLength (jsTrim cont) = 0 ∨ jsLength (jsTrim cont) > 1000) := by
  unfold handleSendMessage
  have hcond : ¬(¬ otruthy (some rid) ∨ ¬ otruthy (some cont)) := by
    simp [otruthy, hrt, hct]
  rw [if_neg hcond]
  dsimp only [Option.getD_some]
  rw [hreg]
  dsimp only
  rw [if_neg (not_not_intro hcur), hrm]
  dsimp only
  rw [if_neg (not_not_intro hact)]
  have hval : Message.validate rid c.userId c.username (jsTrim cont) none =
      Message.validateContent (jsTrim cont) :=
    validate_none_eq_validateContent rid c.userId c.username (jsTrim cont) hrt huid huname
  by_cases hbad : jsLength (jsTrim cont) = 0 ∨ jsLength (jsTrim cont) > 1000
  · have hne : Message.validateContent (jsTrim cont) ≠ [] := by
      intro h0
      exact (validateContent_jsTrim_eq_nil_iff cont).1 h0 hbad
    have hcreate : Message.create rid c.userId c.username (jsTrim cont) none =
        Except.error (Message.validateContent (jsTrim cont)) := by
      unfold Message.create
      rw [hval]
      simp [hne]
    rw [hcreate]
    simp [hbad]
  · have heq : Message.validateContent (jsTrim cont) = [] :=
      (validateContent_jsTrim_eq_nil_iff cont).2 hbad
    have hcreate : Message.create rid c.userId c.username (jsTrim cont) none =
        Except.ok ⟨rid, c.userId, c.username, jsTrim (jsTrim cont), "message"⟩ := by
      unfold Message.create
      rw [hval]
      simp [heq]
    rw [hcreate]
    dsimp only
    have hmsgne : ("Failed to send message" : String) ≠ "Message validation failed" := by decide
    cases persistOk with
    | false => simp [hbad, hmsgne]
    | true => simp [hbad]

/-- C4 witness: with alice joined to room A, content of 1001 characters trips
the validation boundary and yields the VALIDATION_ERROR error event; content of
1000 characters does not trip it. -/
theorem c4_witness :
    ((∃ d, (handleSendMessage demoState ⟨"s1", "u", "alice"⟩ (some "A")
          (some (String.mk (List.replicate 1001 'a'))) true).2 =
        [Event.errorEv (Target.socket "s1") "Message validation failed" d]) ↔
      (jsLength (jsTrim (String.mk (List.replicate 1001 'a'))) = 0 ∨
        jsLength (jsTrim (String.mk (List.replicate 1001 'a'))) > 1000)) ∧
      jsLength (jsTrim (String.mk (List.replicate 1001 'a'))) > 1000 ∧
      ¬(jsLength (jsTrim (String.mk (List.replicate 1000 'a'))) = 0 ∨
        jsLength (jsTrim (String.mk (List.replicate 1000 'a'))) > 1000) :=
  ⟨c4_validation_boundary demoState ⟨"s1", "u", "alice"⟩ ⟨"s1", "alice", some "A"⟩
      ⟨"A", "roomA", true, ["u", "v"]⟩ "A" (String.mk (List.replicate 1001 'a')) true
      (by decide) (by decide) (by decide) (by decide) (by decide) (by decide)
      (by decide) (by decide),
    by decide, by decide⟩

theorem c8_filter_not_mem (cu : List (String × UserInfo)) (l : List String) (u : String)
    (h : u ∉ l) :
    (l.filterMap (fun uid => (mapGet cu uid).map
        (fun i => Participant.mk uid i.username true))).filter
      (fun p => p.userId = u) = [] := by
  induction l with
  | nil => rfl
  | cons a t ih =>
    have hau : a ≠ u := fun he => h (he ▸ List.mem_cons_self a t)
    have hut : u ∉ t := fun he => h (List.mem_cons_of_mem a he)
    cases hfa : mapGet cu a with
    | none =>
      simp only [List.filterMap_cons, hfa, Option.map_none']
      exact ih hut
    | some i =>
      simp only [List.filterMap_cons, hfa, Option.map_some']
      rw [List.filter_cons_of_neg]
      · exact ih hut
      · simp [hau]

theorem c8_filter_no_registry (cu : List (String × UserInfo)) (l : List String) (u : String)
    (h : mapGet cu u = none) :
    (l.filterMap (fun uid => (mapGet cu uid).map
        (fun i => Participant.mk uid i.username true))).filter
      (fun p => p.userId = u) = [] := by
  induction l with
  | nil => rfl
  | cons a t ih =>
    cases hfa : mapGet cu a with
    | none =>
      simp only [List.filterMap_cons, hfa, Option.map_none']
      exact ih
    | some i =>
      have hau : a ≠ u := by
        intro he
        rw [he, h] at hfa
        cases hfa
      simp only [List.filterMap_cons, hfa, Option.map_some']
      rw [List.filter_cons_of_neg]
      · exact ih
      · simp [hau]

theorem c8_filter_mem (cu : List (String × UserInfo)) (l : List String) (u : String)
    (info : UserInfo) (hnd : l.Nodup) (hmem : u ∈ l) (hreg : mapGet cu u = some info) :
    (l.filterMap (fun uid => (mapGet cu uid).map
        (fun i => Participant.mk uid i.username true))).filter
      (fun p => p.userId = u) = [⟨u, info.username, true⟩] := by
  induction l with
  | nil => cases hmem
  | cons a t ih =>
    have hnd2 : t.Nodup := (List.nodup_cons.1 hnd).2
    have hat : a ∉ t := (List.nodup_cons.1 hnd).1
    rcases List.mem_cons.1 hmem with hua | hut
    · subst hua
      simp only [List.filterMap_cons, hreg, Option.map_some']
      rw [List.filter_cons_of_pos]
      · rw [c8_filter_not_mem cu t u hat]
      · simp
    · have hau : a ≠ u := fun he => hat (he ▸ hut)
      cases hfa : mapGet cu a with
      | none =>
        simp only [List.filterMap_cons, hfa, Option.map_none']
        exact ih hnd2 hut
      | some i =>
        simp only [List.filterMap_cons, hfa, Option.map_some']
        rw [List.filter_cons_of_neg]
        · exact ih hnd2 hut
        · simp [hau]

/-- C8: getRoomParticipantsList returns exactly one entry with userId, the
registry username and isOnline true for each member of RoomParticipants[roomId]
that has a live registry entry; members without a registry entry are silently
excluded (the query is a total function, so no error is ever raised); and every
returned entry arises this way. -/
theorem c8_participants_query (st : SHState) (rid : String) :
    ((partsOf st rid).Nodup →
      ∀ u ∈ partsOf st rid, ∀ info, mapGet st.connectedUsers u = some info →
        (getRoomParticipantsList st rid).filter (fun p => p.userId = u) =
          [⟨u, info.username, true⟩]) ∧
      (∀ u, mapGet st.connectedUsers u = none →
        (getRoomParticipantsList st rid).filter (fun p => p.userId = u) = []) ∧
      (∀ p ∈ getRoomParticipantsList st rid, p.userId ∈ partsOf st rid ∧
        p.isOnline = true ∧
        ∃ info, mapGet st.connectedUsers p.userId = some info ∧
          p.username = info.username) := by
  unfold getRoomParticipantsList
  refine ⟨?_, ?_, ?_⟩
  · intro hnd u hmem info hreg
    exact c8_filter_mem st.connectedUsers (partsOf st rid) u info hnd hmem hreg
  · intro u hnone
    exact c8_filter_no_registry st.connectedUsers (partsOf st rid) u hnone
  · intro p hp
    obtain ⟨uid, huid, hf⟩ := List.mem_filterMap.1 hp
    cases hreg : mapGet st.connectedUsers uid with
    | none =>
      rw [hreg] at hf
      cases hf
    | some i =>
      rw [hreg] at hf
      cases hf
      exact ⟨huid, rfl, i, hreg, rfl⟩

/-- C8 witness: in the demo state both members of room A have live registry
entries, and the query returns exactly one entry for alice with her username. -/
theorem c8_witness :
    (getRoomParticipantsList demoState "A").filter (fun p => p.userId = "u") =
      [⟨"u", "alice", true⟩] :=
  (c8_participants_query demoState "A").1 (by decide) "u" (by decide)
    ⟨"s1", "alice", some "A"⟩ (by decide)

theorem leaveRoom_reg_isSome (st : SHState) (c : Conn) (rid? : Option String) (u : String) :
    (mapGet (leaveRoom st c rid?).1.connectedUsers u).isSome =
      (mapGet st.connectedUsers u).isSome := by
  cases rid? with
  | none => rfl
  | some rid =>
    by_cases h : truthy rid = true
    · rw [(leaveRoom_state st c rid h).1, clearCurrentRoom_isSome]
    · unfold leaveRoom
      dsimp only
      rw [if_pos h]

theorem handleJoinRoom_reg_isSome (st : SHState) (c : Conn) (rid? : Option String)
    (u : String) :
    (mapGet (handleJoinRoom st c rid?).1.connectedUsers u).isSome =
      (mapGet st.connectedUsers u).isSome := by
  unfold handleJoinRoom
  split
  · rfl
  · dsimp only
    split
    · rfl
    · split
      · rfl
      · dsimp only
        rw [setCurrentRoom_isSome]
        split
        · split
          · exact leaveRoom_reg_isSome st c _ u
          · rfl
        · rfl

theorem handleDisconnect_reg_isSome_mono (st : SHState) (c : Conn) (u : String)
    (h : (mapGet (handleDisconnect st c).1.connectedUsers u).isSome = true) :
    (mapGet st.connectedUsers u).isSome = true := by
  unfold handleDisconnect at h
  dsimp only at h
  rw [mapGet_mapDelete] at h
  by_cases hu : u = c.userId
  · rw [if_pos hu] at h
    cases h
  · rw [if_neg hu] at h
    revert h
    split
    · split
      · intro h
        rwa [leaveRoom_reg_isSome] at h
      · intro h
        exact h
    · intro h
      exact h

/-- C9: a handshake the middleware rejects (missing token, failed verification,
or unknown user) is refused before any event handler runs, leaving the state
untouched and emitting nothing; and over every operation, a new registry entry
can only appear as the userId of a successfully authenticated connect. -/
theorem c9_auth_gates_registry :
    (∀ (verify : String → Option String) (findUser : String → Option UserRec)
        (st : SHState) (a q : Option String) (sid : String),
      setupMiddleware verify findUser a q = none →
        exec verify findUser st (Op.connect a q sid) = (st, [])) ∧
      (∀ (verify : String → Option String) (findUser : String → Option UserRec)
          (st : SHState) (op : Op) (u : String),
        (mapGet (exec verify findUser st op).1.connectedUsers u).isSome = true →
          (mapGet st.connectedUsers u).isSome = true ∨
          ∃ a q sid user, op = Op.connect a q sid ∧
            setupMiddleware verify findUser a q = some user ∧ user.id = u) := by
  constructor
  · intro verify findUser st a q sid h
    unfold exec
    dsimp only
    rw [h]
  · intro verify findUser st op u h
    cases op with
    | connect a q sid =>
      unfold exec at h
      dsimp only at h
      cases hmw : setupMiddleware verify findUser a q with
      | none =>
        rw [hmw] at h
        exact Or.inl h
      | some user =>
        rw [hmw] at h
        cases hfs : findSocket st sid with
        | some c =>
          rw [hfs] at h
          dsimp only at h
          exact Or.inl h
        | none =>
          rw [hfs] at h
          dsimp only at h
          unfold handleConnection at h
          dsimp only at h
          rw [mapGet_mapSet] at h
          by_cases hu : u = user.id
          · exact Or.inr ⟨a, q, sid, user, rfl, hmw, hu.symm⟩
          · rw [if_neg hu] at h
            exact Or.inl h
    | joinRoom sid rid =>
      unfold exec at h
      dsimp only at h
      cases hfs : findSocket st sid with
      | none =>
        rw [hfs] at h
        dsimp only at h
        exact Or.inl h
      | some c =>
        rw [hfs] at h
        dsimp only at h
        rw [handleJoinRoom_reg_isSome] at h
        exact Or.inl h
    | leaveRoomOp sid rid =>
      unfold exec at h
      dsimp only at h
      cases hfs : findSocket st sid with
      | none =>
        rw [hfs] at h
        dsimp only at h
        exact Or.inl h
      | some c =>
        rw [hfs] at h
        dsimp only at h
        rw [show handleLeaveRoom st c rid = leaveRoom st c rid from rfl,
          leaveRoom_reg_isSome] at h
        exact Or.inl h
    | sendMessage sid rid cont persistOk =>
      unfold exec at h
      dsimp only at h
      cases hfs : findSocket st sid with
      | none =>
        rw [hfs] at h
        dsimp only at h
        exact Or.inl h
      | some c =>
        rw [hfs] at h
        dsimp only at h
        rw [(handleSendMessage_frame st c rid cont persistOk).1] at h
        exact Or.inl h
    | disconnect sid =>
      unfold exec at h
      dsimp only at h
      cases hfs : findSocket st sid with
      | none =>
        rw [hfs] at h
        dsimp only at h
        exact Or.inl h
      | some c =>
        rw [hfs] at h
        dsimp only at h
        exact Or.inl (handleDisconnect_reg_isSome_mono st c u h)

/-- C9 witness: a handshake with no token is refused with no state change and
no events, and a join on the untouched initial state creates no registry entry
for any user other than one added by an authenticated connect. -/
theorem c9_witness :
    exec demoVerify demoFindUser (initState demoRooms) (Op.connect none none "s9") =
        (initState demoRooms, []) ∧
      ((mapGet (exec demoVerify demoFindUser demoState
            (Op.connect (some "tokV") none "s9")).1.connectedUsers "v").isSome = true →
        (mapGet demoState.connectedUsers "v").isSome = true ∨
        ∃ a q sid user, Op.connect (some "tokV") none "s9" = Op.connect a q sid ∧
          setupMiddleware demoVerify demoFindUser a q = some user ∧ user.id = "v") :=
  ⟨c9_auth_gates_registry.1 demoVerify demoFindUser (initState demoRooms) none none "s9"
      (by decide),
    fun h => c9_auth_gates_registry.2 demoVerify demoFindUser demoState
      (Op.connect (some "tokV") none "s9") "v" h⟩

theorem handleJoinRoom_success (st : SHState) (c : Conn) (rid : String) (room : RoomRec)
    (hB : truthy rid = true) (hrm : Room.findById st.rooms rid = some room)
    (hact : room.isActive = true) (info : UserInfo)
    (hreg : mapGet st.connectedUsers c.userId = some info)
    (hcurT : otruthy info.currentRoom = true) :
    (handleJoinRoom st c (some rid)).1.connectedUsers =
        setCurrentRoom (leaveRoom st c info.currentRoom).1.connectedUsers c.userId rid ∧
      (handleJoinRoom st c (some rid)).1.roomParticipants =
        partsAdd (leaveRoom st c info.currentRoom).1.roomParticipants rid c.userId ∧
      (handleJoinRoom st c (some rid)).1.liveSockets =
        (leaveRoom st c info.currentRoom).1.liveSockets ∧
      ∃ ps, (handleJoinRoom st c (some rid)).2 =
        (leaveRoom st c info.currentRoom).2 ++
          [Event.userJoinedEv (Target.roomExcept rid c.sockId) c.userId c.username,
           Event.participantsUpdateEv (Target.room rid) rid ps,
           Event.roomJoinedEv (Target.socket c.sockId) rid room.name ps] := by
  unfold handleJoinRoom
  have hcond : ¬ (¬ otruthy (some rid) = true) := by simp [otruthy, hB]
  rw [if_neg hcond]
  dsimp only [Option.getD_some]
  rw [hrm]
  dsimp only
  rw [if_neg (not_not_intro hact), hreg]
  dsimp only
  rw [if_pos hcurT]
  exact ⟨rfl, rfl, rfl, _, rfl⟩

/-- Core room-switch lemma: if the user's memberships before the operation are
confined to the current room A, then joining room B applies the full leaveRoom
steps for A before the join takes effect, leaving the registry at B, the
membership equal to exactly B, and the leave events for A ahead of the join
events for B. The membership precondition is discharged from the reachability
invariant in the single-connection regime; it can fail in clobbered
multi-connection states. -/
theorem handleJoinRoom_switch_core (st : SHState) (c : Conn) (info : UserInfo)
    (A B : String) (room : RoomRec)
    (hreg : mapGet st.connectedUsers c.userId = some info)
    (hcur : info.currentRoom = some A) (hA : truthy A = true)
    (hB : truthy B = true) (hrm : Room.findById st.rooms B = some room)
    (hact : room.isActive = true)
    (hmem : ∀ r, c.userId ∈ partsOf st r → r = A) :
    (∃ info2, mapGet (handleJoinRoom st c (some B)).1.connectedUsers c.userId = some info2 ∧
        info2.currentRoom = some B) ∧
      (∀ r, c.userId ∈ partsOf (handleJoinRoom st c (some B)).1 r ↔ r = B) ∧
      (∃ ps, (handleJoinRoom st c (some B)).2 =
        (leaveRoom st c (some A)).2 ++
          [Event.userJoinedEv (Target.roomExcept B c.sockId) c.userId c.username,
           Event.participantsUpdateEv (Target.room B) B ps,
           Event.roomJoinedEv (Target.socket c.sockId) B room.name ps]) := by
  have hcurT : otruthy info.currentRoom = true := by rw [hcur]; exact hA
  obtain ⟨hcu, hrp, _, hev⟩ :=
    handleJoinRoom_success st c B room hB hrm hact info hreg hcurT
  rw [hcur] at hcu hrp hev
  refine ⟨?_, ?_, hev⟩
  · rw [hcu, setCurrentRoom_get_self, (leaveRoom_state st c A hA).1,
      clearCurrentRoom_get_self, hreg]
    simp [hcur]
  · intro r
    have hpdef : partsOf (handleJoinRoom st c (some B)).1 r =
        (mapGet (handleJoinRoom st c (some B)).1.roomParticipants r).getD [] := rfl
    rw [hpdef, hrp, (leaveRoom_state st c A hA).2.1, mem_partsAdd, mem_partsRemove]
    constructor
    · rintro (⟨hm, hra⟩ | ⟨hrB, _⟩)
      · have hrA : r = A := hmem r hm
        exact absurd ⟨hrA, rfl⟩ hra
      · exact hrB
    · intro hrB
      exact Or.inr ⟨hrB, rfl⟩

theorem countDelivered_singleton_pos (st : SHState) (e : Event) (p : Event → Bool)
    (sid : String) (h : (p e && deliveredTo st e sid) = true) :
    countDelivered st [e] p sid = 1 := by
  unfold countDelivered
  rw [@List.filter_cons_of_pos Event (fun x => p x && deliveredTo st x sid) e [] h]
  rfl

/-- C3: a fully valid send-message request persists exactly one Message built
from the authenticated connection (messageType "message", trimmed content,
senderId and senderUsername taken from the socket rather than the payload) and
then emits exactly one new-message broadcast to the room, which delivers
exactly one new-message event to every current participant of the room whose
socket is in the transport room, including the sender. -/
theorem c3_valid_send_persists_and_broadcasts (st : SHState) (c : Conn) (info : UserInfo)
    (room : RoomRec) (rid cont : String)
    (hrt : truthy rid = true) (hct : truthy cont = true)
    (hreg : mapGet st.connectedUsers c.userId = some info)
    (hcur : info.currentRoom = some rid)
    (hrm : Room.findById st.rooms rid = some room) (hact : room.isActive = true)
    (huid : truthy c.userId = true) (huname : truthy c.username = true)
    (h1 : jsLength (jsTrim cont) ≠ 0) (h2 : ¬ jsLength (jsTrim cont) > 1000) :
    (handleSendMessage st c (some rid) (some cont) true).1.messages =
        st.messages ++ [⟨rid, c.userId, c.username, jsTrim cont, "message"⟩] ∧
      (handleSendMessage st c (some rid) (some cont) true).2 =
        [Event.newMessageEv (Target.room rid)
          ⟨rid, c.userId, c.username, jsTrim cont, "message"⟩] ∧
      (∀ u ∈ partsOf st rid, ∀ i, mapGet st.connectedUsers u = some i →
        i.socketId ∈ transportMembers st rid →
        countDelivered (handleSendMessage st c (some rid) (some cont) true).1
          (handleSendMessage st c (some rid) (some cont) true).2
          isNewMessage i.socketId = 1) := by
  unfold handleSendMessage
  have hcond : ¬(¬ otruthy (some rid) ∨ ¬ otruthy (some cont)) := by
    simp [otruthy, hrt, hct]
  rw [if_neg hcond]
  dsimp only [Option.getD_some]
  rw [hreg]
  dsimp only
  rw [if_neg (not_not_intro hcur), hrm]
  dsimp only
  rw [if_neg (not_not_intro hact)]
  have hval : Message.validate rid c.userId c.username (jsTrim cont) none =
      Message.validateContent (jsTrim cont) :=
    validate_none_eq_validateContent rid c.userId c.username (jsTrim cont) hrt huid huname
  have heq : Message.validateContent (jsTrim cont) = [] :=
    (validateContent_jsTrim_eq_nil_iff cont).2 (by
      rintro (ha | hb)
      · exact h1 ha
      · exact h2 hb)
  have hcreate : Message.create rid c.userId c.username (jsTrim cont) none =
      Except.ok ⟨rid, c.userId, c.username, jsTrim cont, "message"⟩ := by
    unfold Message.create
    rw [hval]
    simp [heq, jsTrim_idem]
  rw [hcreate]
  dsimp only
  refine ⟨rfl, rfl, ?_⟩
  intro u hu i hi hmemT
  have hmem2 : (i.socketId ∈ transportMembers
      { st with messages := st.messages ++
          [(⟨rid, c.userId, c.username, jsTrim cont, "message"⟩ : MessageRec)] } rid) := hmemT
  exact countDelivered_singleton_pos _ _ _ _
    (by simp [isNewMessage, deliveredTo, eventTarget, targetSockets, hmem2])

/-- C3 witness: bob sends a padded hello to room A in the demo state; the
trimmed message is persisted once, broadcast once to the room, and alice (a
participant with socket s1 in the transport room) receives it exactly once. -/
theorem c3_witness :
    (handleSendMessage demoState ⟨"s2", "v", "bob"⟩ (some "A") (some "  hello  ") true).1.messages =
        [] ++ [⟨"A", "v", "bob", jsTrim "  hello  ", "message"⟩] ∧
      (handleSendMessage demoState ⟨"s2", "v", "bob"⟩ (some "A") (some "  hello  ") true).2 =
        [Event.newMessageEv (Target.room "A") ⟨"A", "v", "bob", jsTrim "  hello  ", "message"⟩] ∧
      countDelivered
        (handleSendMessage demoState ⟨"s2", "v", "bob"⟩ (some "A") (some "  hello  ") true).1
        (handleSendMessage demoState ⟨"s2", "v", "bob"⟩ (some "A") (some "  hello  ") true).2
        isNewMessage "s1" = 1 := by
  obtain ⟨hmsg, hevs, hdel⟩ := c3_valid_send_persists_and_broadcasts demoState
    ⟨"s2", "v", "bob"⟩ ⟨"s2", "bob", some "A"⟩ ⟨"A", "roomA", true, ["u", "v"]⟩ "A" "  hello  "
    (by decide) (by decide) (by decide) (by decide) (by decide) (by decide)
    (by decide) (by decide) (by decide) (by decide)
  exact ⟨hmsg, hevs, hdel "u" (by decide) ⟨"s1", "alice", some "A"⟩ (by decide) (by decide)⟩

theorem countDelivered_nil (st : SHState) (p : Event → Bool) (sid : String) :
    countDelivered st [] p sid = 0 := rfl

theorem countDelivered_cons (st : SHState) (e : Event) (rest : List Event)
    (p : Event → Bool) (sid : String) :
    countDelivered st (e :: rest) p sid =
      (if (p e && deliveredTo st e sid) = true then 1 else 0) +
        countDelivered st rest p sid := by
  unfold countDelivered
  by_cases h : (p e && deliveredTo st e sid) = true
  · rw [@List.filter_cons_of_pos Event (fun x => p x && deliveredTo st x sid) e rest h,
      if_pos h, List.length_cons]
    exact Nat.add_comm _ 1
  · rw [@List.filter_cons_of_neg Event (fun x => p x && deliveredTo st x sid) e rest h,
      if_neg h]
    exact (Nat.zero_add _).symm

theorem leaveRoom_events (st : SHState) (c : Conn) (rid : String) (room : RoomRec)
    (h : truthy rid = true) (hrm : Room.findById st.rooms rid = some room) :
    ∃ ps, (leaveRoom st c (some rid)).2 =
      [Event.userLeftEv (Target.roomExcept rid c.sockId) c.userId c.username,
       Event.participantsUpdateEv (Target.roomExcept rid c.sockId) rid ps,
       Event.roomLeftEv (Target.socket c.sockId) rid] := by
  unfold leaveRoom
  dsimp only
  rw [if_neg (not_not_intro h)]
  rw [show ({ st with transportRooms := transportLeave st.transportRooms rid c.sockId } :
      SHState).rooms = st.rooms from rfl, hrm]
  exact ⟨_, rfl⟩

/-- C6: a disconnect while the connection is in room R performs exactly the
explicit leaveRoom steps for R (the user is removed from RoomParticipants[R]
and the leave events are emitted, so each remaining socket of the transport
room receives exactly one user-left and exactly one participants-update event)
and then removes the registry entry; a disconnect with no current room only
removes the registry entry, cleans the dead socket out of the transport, and
emits nothing. -/
theorem c6_disconnect_cleanup (st : SHState) (c : Conn) :
    (∀ info R room, mapGet st.connectedUsers c.userId = some info →
      info.currentRoom = some R → truthy R = true →
      Room.findById st.rooms R = some room →
      mapGet (handleDisconnect st c).1.connectedUsers c.userId = none ∧
        (handleDisconnect st c).1.roomParticipants =
          partsRemove st.roomParticipants R c.userId ∧
        (handleDisconnect st c).2 = (leaveRoom st c (some R)).2 ∧
        (∀ sid, sid ∈ transportMembers (handleDisconnect st c).1 R → sid ≠ c.sockId →
          countDelivered (handleDisconnect st c).1 (handleDisconnect st c).2
              isUserLeft sid = 1 ∧
            countDelivered (handleDisconnect st c).1 (handleDisconnect st c).2
              isParticipantsUpdate sid = 1)) ∧
      (∀ info, mapGet st.connectedUsers c.userId = some info → info.currentRoom = none →
        (handleDisconnect st c).1 =
          { st with
              connectedUsers := mapDelete st.connectedUsers c.userId
              liveSockets := st.liveSockets.filter (fun c2 => c2.sockId ≠ c.sockId)
              transportRooms := st.transportRooms.map
                (fun p => (p.1, setDelete p.2 c.sockId)) } ∧
          (handleDisconnect st c).2 = []) := by
  constructor
  · intro info R room hreg hcur hR hrm
    have hcurT : otruthy info.currentRoom = true := by rw [hcur]; exact hR
    have hd : handleDisconnect st c =
        (let prev := leaveRoom st c (some R)
         let st1 := prev.1
         let st2 := { st1 with connectedUsers := mapDelete st1.connectedUsers c.userId }
         ({ st2 with
            liveSockets := st2.liveSockets.filter (fun c2 => c2.sockId ≠ c.sockId),
            transportRooms := st2.transportRooms.map
              (fun p => (p.1, setDelete p.2 c.sockId)) }, prev.2)) := by
      unfold handleDisconnect
      rw [hreg]
      dsimp only
      rw [if_pos hcurT, hcur]
    have hlr := leaveRoom_state st c R hR
    have ha : (handleDisconnect st c).1.connectedUsers =
        mapDelete (leaveRoom st c (some R)).1.connectedUsers c.userId := by rw [hd]
    have hb : (handleDisconnect st c).1.roomParticipants =
        (leaveRoom st c (some R)).1.roomParticipants := by rw [hd]
    have hc2 : (handleDisconnect st c).2 = (leaveRoom st c (some R)).2 := by rw [hd]
    refine ⟨?_, ?_, hc2, ?_⟩
    · rw [ha, mapGet_mapDelete, if_pos rfl]
    · rw [hb, hlr.2.1]
    · intro sid hsid hne
      obtain ⟨ps, hev⟩ := leaveRoom_events st c R room hR hrm
      rw [hc2, hev]
      have hdel1 : deliveredTo (handleDisconnect st c).1
          (Event.userLeftEv (Target.roomExcept R c.sockId) c.userId c.username) sid = true := by
        unfold deliveredTo eventTarget targetSockets
        rw [decide_eq_true_eq, List.mem_filter]
        exact ⟨hsid, by simpa using hne⟩
      have hdel2 : deliveredTo (handleDisconnect st c).1
          (Event.participantsUpdateEv (Target.roomExcept R c.sockId) R ps) sid = true := by
        unfold deliveredTo eventTarget targetSockets
        rw [decide_eq_true_eq, List.mem_filter]
        exact ⟨hsid, by simpa using hne⟩
      constructor
      · rw [countDelivered_cons, countDelivered_cons, countDelivered_cons,
          countDelivered_nil, hdel1]
        simp [isUserLeft]
      · rw [countDelivered_cons, countDelivered_cons, countDelivered_cons,
          countDelivered_nil, hdel2]
        simp [isParticipantsUpdate]
  · intro info hreg hcur
    have hcurF : otruthy info.currentRoom = false := by rw [hcur]; rfl
    unfold handleDisconnect
    rw [hreg]
    dsimp only
    rw [hcurF]
    exact ⟨rfl, rfl⟩

/-- C6 witness: alice disconnects from room A in the demo state; her registry
entry is gone and the remaining participant socket s2 receives exactly one
user-left and one participants-update event. -/
theorem c6_witness :
    mapGet (handleDisconnect demoState ⟨"s1", "u", "alice"⟩).1.connectedUsers "u" = none ∧
      countDelivered (handleDisconnect demoState ⟨"s1", "u", "alice"⟩).1
          (handleDisconnect demoState ⟨"s1", "u", "alice"⟩).2 isUserLeft "s2" = 1 ∧
      countDelivered (handleDisconnect demoState ⟨"s1", "u", "alice"⟩).1
          (handleDisconnect demoState ⟨"s1", "u", "alice"⟩).2 isParticipantsUpdate "s2" = 1 := by
  obtain ⟨h1, h2, h3, h4⟩ := (c6_disconnect_cleanup demoState ⟨"s1", "u", "alice"⟩).1
    ⟨"s1", "alice", some "A"⟩ "A" ⟨"A", "roomA", true, ["u", "v"]⟩
    (by decide) (by decide) (by decide) (by decide)
  obtain ⟨hc1, hc2⟩ := h4 "s2" (by decide) (by decide)
  exact ⟨h1, hc1, hc2⟩

/-! Machinery for the reachability invariant of C1. -/

theorem truthy_false_iff (s : String) : truthy s = false ↔ s = "" := by
  unfold truthy
  rcases eq_or_ne s "" with h | h
  · simp [h]
  · simp [h]

theorem otruthy_true_exists (o : Option String) :
    otruthy o = true ↔ ∃ s, o = some s ∧ truthy s = true := by
  cases o with
  | none => simp [otruthy]
  | some s => simp [otruthy]

theorem Inv_init (rooms : List RoomRec) : Inv (initState rooms) := by
  constructor
  · intro u
    constructor
    · intro h
      cases h
    · rintro ⟨c2, hc2, _⟩
      cases hc2
  · intro c1 h1
    cases h1
  · intro c1 h1
    cases h1
  · intro u r
    constructor
    · intro h
      cases h
    · rintro ⟨i, hi, _⟩
      cases hi
  · intro u info h
    cases h

theorem Inv_congr (s1 s2 : SHState) (h1 : s2.connectedUsers = s1.connectedUsers)
    (h2 : s2.roomParticipants = s1.roomParticipants)
    (h3 : s2.liveSockets = s1.liveSockets) (hInv : Inv s1) : Inv s2 := by
  constructor
  · intro u
    rw [h1, h3]
    exact hInv.reg_live u
  · intro c1 hc1 c2 hc2
    rw [h3] at hc1 hc2
    exact hInv.sock_uniq c1 hc1 c2 hc2
  · intro c1 hc1 c2 hc2
    rw [h3] at hc1 hc2
    exact hInv.user_uniq c1 hc1 c2 hc2
  · intro u r
    have hp : partsOf s2 r = partsOf s1 r := by
      unfold partsOf
      rw [h2]
    rw [hp, h1]
    exact hInv.part_iff u r
  · intro u info h
    rw [h1] at h
    exact hInv.cur_truthy u info h

theorem Inv_leaveRoom (st : SHState) (c : Conn) (rid? : Option String) (hInv : Inv st) :
    Inv (leaveRoom st c rid?).1 := by
  cases rid? with
  | none => exact hInv
  | some rid =>
    by_cases hr : truthy rid = true
    · obtain ⟨hcu, hrp, hls, _⟩ := leaveRoom_state st c rid hr
      constructor
      · intro u
        rw [hcu, hls, clearCurrentRoom_isSome]
        exact hInv.reg_live u
      · intro c1 hc1 c2 hc2
        rw [hls] at hc1 hc2
        exact hInv.sock_uniq c1 hc1 c2 hc2
      · intro c1 hc1 c2 hc2
        rw [hls] at hc1 hc2
        exact hInv.user_uniq c1 hc1 c2 hc2
      · intro u r
        have hpdef : partsOf (leaveRoom st c (some rid)).1 r =
            (mapGet (leaveRoom st c (some rid)).1.roomParticipants r).getD [] := rfl
        have base : u ∈ (mapGet st.roomParticipants r).getD [] ↔
            ∃ info, mapGet st.connectedUsers u = some info ∧ info.currentRoom = some r :=
          hInv.part_iff u r
        rw [hpdef, hrp, mem_partsRemove, hcu]
        by_cases hu : u = c.userId
        · subst hu
          rw [clearCurrentRoom_get_self]
          cases hreg0 : mapGet st.connectedUsers c.userId with
          | none =>
            rw [hreg0] at base
            simp only [Option.map_none']
            constructor
            · rintro ⟨hm, _⟩
              obtain ⟨i, hi, _⟩ := base.1 hm
              cases hi
            · rintro ⟨i, hi, _⟩
              cases hi
          | some info0 =>
            rw [hreg0] at base
            simp only [Option.map_some']
            by_cases hc0 : info0.currentRoom = some rid
            · rw [if_pos hc0]
              constructor
              · rintro ⟨hm, hnand⟩
                obtain ⟨i, hi, hcr⟩ := base.1 hm
                injection hi with hi2
                subst hi2
                rw [hc0] at hcr
                injection hcr with hcr2
                exact absurd ⟨hcr2.symm, by trivial⟩ hnand
              · rintro ⟨i, hi, hcr⟩
                injection hi with hi2
                subst hi2
                cases hcr
            · rw [if_neg hc0]
              constructor
              · rintro ⟨hm, _⟩
                exact base.1 hm
              · intro hex
                refine ⟨base.2 hex, ?_⟩
                rintro ⟨hrr, -⟩
                obtain ⟨i, hi, hcr⟩ := hex
                injection hi with hi2
                subst hi2
                rw [hrr] at hcr
                exact hc0 hcr
        · rw [clearCurrentRoom_get_ne _ _ _ _ hu]
          constructor
          · rintro ⟨hm, _⟩
            exact base.1 hm
          · intro hex
            exact ⟨base.2 hex, fun hand => hu hand.2⟩
      · intro u info h
        rw [hcu] at h
        by_cases hu : u = c.userId
        · subst hu
          rw [clearCurrentRoom_get_self] at h
          cases hreg0 : mapGet st.connectedUsers c.userId with
          | none =>
            rw [hreg0] at h
            cases h
          | some i0 =>
            rw [hreg0] at h
            simp only [Option.map_some'] at h
            by_cases hc0 : i0.currentRoom = some rid
            · rw [if_pos hc0] at h
              injection h with h2
              rw [← h2]
              simp
            · rw [if_neg hc0] at h
              injection h with h2
              rw [← h2]
              exact hInv.cur_truthy _ i0 hreg0
        · rw [clearCurrentRoom_get_ne _ _ _ _ hu] at h
          exact hInv.cur_truthy u info h
    · have heq : (leaveRoom st c (some rid)).1 = st := by
        unfold leaveRoom
        dsimp only
        rw [if_pos hr]
      rw [heq]
      exact hInv

theorem truthy_ne (s : String) (h : truthy s = true) : s ≠ "" := by
  unfold truthy at h
  simpa using h

theorem handleJoinRoom_noleave (st : SHState) (c : Conn) (rid : String) (room : RoomRec)
    (hB : truthy rid = true) (hrm : Room.findById st.rooms rid = some room)
    (hact : room.isActive = true) (info : UserInfo)
    (hreg : mapGet st.connectedUsers c.userId = some info)
    (hcurF : otruthy info.currentRoom = false) :
    (handleJoinRoom st c (some rid)).1.connectedUsers =
        setCurrentRoom st.connectedUsers c.userId rid ∧
      (handleJoinRoom st c (some rid)).1.roomParticipants =
        partsAdd st.roomParticipants rid c.userId ∧
      (handleJoinRoom st c (some rid)).1.liveSockets = st.liveSockets := by
  unfold handleJoinRoom
  have hcond : ¬ (¬ otruthy (some rid) = true) := by simp [otruthy, hB]
  rw [if_neg hcond]
  dsimp only [Option.getD_some]
  rw [hrm]
  dsimp only
  rw [if_neg (not_not_intro hact), hreg]
  dsimp only
  rw [if_neg (by simp [hcurF])]
  exact ⟨rfl, rfl, rfl⟩

theorem Inv_join_update (st1 : SHState) (c : Conn) (rid : String)
    (hInv1 : Inv st1) (hrne : truthy rid = true)
    (info1 : UserInfo) (hreg1 : mapGet st1.connectedUsers c.userId = some info1)
    (hcur1 : info1.currentRoom = none)
    (s2 : SHState)
    (h1 : s2.connectedUsers = setCurrentRoom st1.connectedUsers c.userId rid)
    (h2 : s2.roomParticipants = partsAdd st1.roomParticipants rid c.userId)
    (h3 : s2.liveSockets = st1.liveSockets) : Inv s2 := by
  constructor
  · intro u
    rw [h1, h3, setCurrentRoom_isSome]
    exact hInv1.reg_live u
  · intro a ha b hb
    rw [h3] at ha hb
    exact hInv1.sock_uniq a ha b hb
  · intro a ha b hb
    rw [h3] at ha hb
    exact hInv1.user_uniq a ha b hb
  · intro u r
    have hp : partsOf s2 r = (mapGet (partsAdd st1.roomParticipants rid c.userId) r).getD [] := by
      unfold partsOf
      rw [h2]
    have base := hInv1.part_iff u r
    rw [hp, mem_partsAdd, h1]
    by_cases hu : u = c.userId
    · subst hu
      rw [setCurrentRoom_get_self, hreg1]
      simp only [Option.map_some']
      constructor
      · rintro (hm | ⟨hrr, -⟩)
        · obtain ⟨i, hi, hcr⟩ := base.1 hm
          rw [hreg1] at hi
          injection hi with hi2
          subst hi2
          rw [hcur1] at hcr
          cases hcr
        · exact ⟨{ info1 with currentRoom := some rid }, rfl, by rw [hrr]⟩
      · rintro ⟨i2, hi2, hcr2⟩
        injection hi2 with he
        subst he
        simp only at hcr2
        injection hcr2 with he2
        exact Or.inr ⟨he2.symm, by trivial⟩
    · rw [setCurrentRoom_get_ne _ _ _ _ hu]
      constructor
      · rintro (hm | ⟨-, hUU⟩)
        · exact base.1 hm
        · exact absurd hUU hu
      · intro hex
        exact Or.inl (base.2 hex)
  · intro u info h
    rw [h1] at h
    by_cases hu : u = c.userId
    · subst hu
      rw [setCurrentRoom_get_self, hreg1] at h
      simp only [Option.map_some'] at h
      injection h with h2
      rw [← h2]
      intro hcontra
      simp only at hcontra
      injection hcontra with h3x
      exact truthy_ne rid hrne h3x
    · rw [setCurrentRoom_get_ne _ _ _ _ hu] at h
      exact hInv1.cur_truthy u info h

theorem Inv_join (st : SHState) (c : Conn) (rid? : Option String) (hInv : Inv st)
    (hlive : c ∈ st.liveSockets) : Inv (handleJoinRoom st c rid?).1 := by
  by_cases ho : otruthy rid? = true
  case neg =>
    have heq : (handleJoinRoom st c rid?).1 = st := by
      unfold handleJoinRoom
      rw [if_pos (by simpa using ho)]
    rw [heq]
    exact hInv
  case pos =>
    obtain ⟨rid, hrid?, hr⟩ := (otruthy_true_exists rid?).1 ho
    subst hrid?
    cases hrm : Room.findById st.rooms rid with
    | none =>
      have heq : (handleJoinRoom st c (some rid)).1 = st := by
        unfold handleJoinRoom
        rw [if_neg (by simp [otruthy, hr])]
        dsimp only [Option.getD_some]
        rw [hrm]
      rw [heq]
      exact hInv
    | some room =>
      by_cases hact : room.isActive = true
      case neg =>
        have heq : (handleJoinRoom st c (some rid)).1 = st := by
          unfold handleJoinRoom
          rw [if_neg (by simp [otruthy, hr])]
          dsimp only [Option.getD_some]
          rw [hrm]
          dsimp only
          rw [if_pos hact]
        rw [heq]
        exact hInv
      case pos =>
        have hsome : (mapGet st.connectedUsers c.userId).isSome = true :=
          (hInv.reg_live c.userId).2 ⟨c, hlive, rfl⟩
        obtain ⟨info, hreg⟩ := Option.isSome_iff_exists.1 hsome
        by_cases hcurT : otruthy info.currentRoom = true
        · obtain ⟨A, hA1, hA2⟩ := (otruthy_true_exists info.currentRoom).1 hcurT
          obtain ⟨hcu, hrp, hls, -⟩ :=
            handleJoinRoom_success st c rid room hr hrm hact info hreg hcurT
          have hInv1 : Inv (leaveRoom st c info.currentRoom).1 :=
            Inv_leaveRoom st c info.currentRoom hInv
          have hreg1 : mapGet (leaveRoom st c info.currentRoom).1.connectedUsers c.userId =
              some { info with currentRoom := none } := by
            rw [hA1, (leaveRoom_state st c A hA2).1, clearCurrentRoom_get_self, hreg]
            simp [hA1]
          have hlive1 : c ∈ (leaveRoom st c info.currentRoom).1.liveSockets := by
            rw [hA1, (leaveRoom_state st c A hA2).2.2.1]
            exact hlive
          exact Inv_join_update _ c rid hInv1 hr _ hreg1 rfl _ hcu hrp hls
        · have hcurN : info.currentRoom = none := by
            cases hc : info.currentRoom with
            | none => rfl
            | some s =>
              rw [hc] at hcurT
              have hs : truthy s = false := by
                revert hcurT
                simp [otruthy]
              rw [truthy_false_iff] at hs
              subst hs
              exact absurd hc (hInv.cur_truthy _ info hreg)
          obtain ⟨hcu, hrp, hls⟩ := handleJoinRoom_noleave st c rid room hr hrm hact info hreg
            (by rw [hcurN]; rfl)
          exact Inv_join_update st c rid hInv hr info hreg hcurN _ hcu hrp hls

theorem Inv_delete_user (stM : SHState) (c : Conn) (hInvM : Inv stM)
    (hliveM : c ∈ stM.liveSockets)
    (hcur_none : ∀ i, mapGet stM.connectedUsers c.userId = some i → i.currentRoom = none)
    (s3 : SHState)
    (h1 : s3.connectedUsers = mapDelete stM.connectedUsers c.userId)
    (h2 : s3.roomParticipants = stM.roomParticipants)
    (h3 : s3.liveSockets = stM.liveSockets.filter (fun c2 => c2.sockId ≠ c.sockId)) :
    Inv s3 := by
  constructor
  · intro u
    rw [h1, h3, mapGet_mapDelete]
    by_cases hu : u = c.userId
    · rw [if_pos hu]
      simp only [Option.isSome_none, Bool.false_eq_true, false_iff]
      rintro ⟨c2, hc2, hc2u⟩
      rw [List.mem_filter] at hc2
      obtain ⟨hc2mem, hc2ne⟩ := hc2
      have hceq : c2 = c := hInvM.user_uniq c2 hc2mem c hliveM (by rw [hc2u, hu])
      subst hceq
      simp at hc2ne
    · rw [if_neg hu, hInvM.reg_live u]
      constructor
      · rintro ⟨c2, hc2m, hc2u⟩
        refine ⟨c2, ?_, hc2u⟩
        rw [List.mem_filter]
        refine ⟨hc2m, ?_⟩
        by_contra hcx
        simp at hcx
        have hceq : c2 = c := hInvM.sock_uniq c2 hc2m c hliveM hcx
        exact hu (by rw [← hc2u, hceq])
      · rintro ⟨c2, hc2, hc2u⟩
        rw [List.mem_filter] at hc2
        exact ⟨c2, hc2.1, hc2u⟩
  · intro a ha b hb
    rw [h3, List.mem_filter] at ha hb
    exact hInvM.sock_uniq a ha.1 b hb.1
  · intro a ha b hb
    rw [h3, List.mem_filter] at ha hb
    exact hInvM.user_uniq a ha.1 b hb.1
  · intro u r
    have hp : partsOf s3 r = partsOf stM r := by
      unfold partsOf
      rw [h2]
    have base := hInvM.part_iff u r
    rw [hp, h1, mapGet_mapDelete]
    by_cases hu : u = c.userId
    · subst hu
      rw [if_pos rfl]
      constructor
      · intro hm
        obtain ⟨i, hi, hcr⟩ := base.1 hm
        rw [hcur_none i hi] at hcr
        cases hcr
      · rintro ⟨i, hi, -⟩
        cases hi
    · rw [if_neg hu]
      exact base
  · intro u info h
    rw [h1, mapGet_mapDelete] at h
    by_cases hu : u = c.userId
    · rw [if_pos hu] at h
      cases h
    · rw [if_neg hu] at h
      exact hInvM.cur_truthy u info h

theorem currentRoom_none_of_otruthy_false (st : SHState) (hInv : Inv st) (u : String)
    (info : UserInfo) (hreg : mapGet st.connectedUsers u = some info)
    (hf : ¬ otruthy info.currentRoom = true) : info.currentRoom = none := by
  cases hc : info.currentRoom with
  | none => rfl
  | some s =>
    rw [hc] at hf
    have hs : truthy s = false := by
      revert hf
      simp [otruthy]
    rw [truthy_false_iff] at hs
    subst hs
    exact absurd hc (hInv.cur_truthy u info hreg)

theorem Inv_disconnect (st : SHState) (c : Conn) (hInv : Inv st)
    (hlive : c ∈ st.liveSockets) : Inv (handleDisconnect st c).1 := by
  have hsome : (mapGet st.connectedUsers c.userId).isSome = true :=
    (hInv.reg_live c.userId).2 ⟨c, hlive, rfl⟩
  obtain ⟨info, hreg⟩ := Option.isSome_iff_exists.1 hsome
  by_cases hcurT : otruthy info.currentRoom = true
  · obtain ⟨A, hA1, hA2⟩ := (otruthy_true_exists info.currentRoom).1 hcurT
    have hcu : (handleDisconnect st c).1.connectedUsers =
        mapDelete (leaveRoom st c info.currentRoom).1.connectedUsers c.userId := by
      unfold handleDisconnect
      rw [hreg]
      dsimp only
      rw [if_pos hcurT]
    have hrp : (handleDisconnect st c).1.roomParticipants =
        (leaveRoom st c info.currentRoom).1.roomParticipants := by
      unfold handleDisconnect
      rw [hreg]
      dsimp only
      rw [if_pos hcurT]
    have hls : (handleDisconnect st c).1.liveSockets =
        (leaveRoom st c info.currentRoom).1.liveSockets.filter
          (fun c2 => c2.sockId ≠ c.sockId) := by
      unfold handleDisconnect
      rw [hreg]
      dsimp only
      rw [if_pos hcurT]
    have hInv1 := Inv_leaveRoom st c info.currentRoom hInv
    have hlive1 : c ∈ (leaveRoom st c info.currentRoom).1.liveSockets := by
      rw [hA1, (leaveRoom_state st c A hA2).2.2.1]
      exact hlive
    have hcn : ∀ i, mapGet (leaveRoom st c info.currentRoom).1.connectedUsers c.userId =
        some i → i.currentRoom = none := by
      intro i hi
      rw [hA1, (leaveRoom_state st c A hA2).1, clearCurrentRoom_get_self, hreg] at hi
      simp only [Option.map_some', hA1, if_pos] at hi
      injection hi with h2
      rw [← h2]
    exact Inv_delete_user _ c hInv1 hlive1 hcn _ hcu hrp hls
  · have hcurN : info.currentRoom = none :=
      currentRoom_none_of_otruthy_false st hInv c.userId info hreg hcurT
    have hcu : (handleDisconnect st c).1.connectedUsers =
        mapDelete st.connectedUsers c.userId := by
      unfold handleDisconnect
      rw [hreg]
      dsimp only
      rw [if_neg hcurT]
    have hrp : (handleDisconnect st c).1.roomParticipants = st.roomParticipants := by
      unfold handleDisconnect
      rw [hreg]
      dsimp only
      rw [if_neg hcurT]
    have hls : (handleDisconnect st c).1.liveSockets =
        st.liveSockets.filter (fun c2 => c2.sockId ≠ c.sockId) := by
      unfold handleDisconnect
      rw [hreg]
      dsimp only
      rw [if_neg hcurT]
    refine Inv_delete_user st c hInv hlive ?_ _ hcu hrp hls
    intro i hi
    rw [hreg] at hi
    injection hi with h2
    rw [← h2]
    exact hcurN

theorem Inv_send (st : SHState) (c : Conn) (rid cont : Option String) (persistOk : Bool)
    (hInv : Inv st) : Inv (handleSendMessage st c rid cont persistOk).1 := by
  obtain ⟨h1, h2, _, h4, _⟩ := handleSendMessage_frame st c rid cont persistOk
  exact Inv_congr st _ h1 h2 h4 hInv

theorem Inv_connect (st : SHState) (sid uid uname : String) (hInv : Inv st)
    (hfresh_user : ∀ c2 ∈ st.liveSockets, c2.userId ≠ uid)
    (hfresh_sock : ∀ c2 ∈ st.liveSockets, c2.sockId ≠ sid) :
    Inv (handleConnection st ⟨sid, uid, uname⟩).1 := by
  have hcu : (handleConnection st ⟨sid, uid, uname⟩).1.connectedUsers =
      mapSet st.connectedUsers uid ⟨sid, uname, none⟩ := rfl
  have hls : (handleConnection st ⟨sid, uid, uname⟩).1.liveSockets =
      st.liveSockets ++ [⟨sid, uid, uname⟩] := rfl
  constructor
  · intro u
    rw [hcu, hls, mapGet_mapSet]
    by_cases hu : u = uid
    · subst hu
      rw [if_pos rfl]
      simp only [Option.isSome_some, true_iff]
      exact ⟨⟨sid, u, uname⟩, by simp, rfl⟩
    · rw [if_neg hu, hInv.reg_live u]
      constructor
      · rintro ⟨c2, hc2, hc2u⟩
        exact ⟨c2, by simp [hc2], hc2u⟩
      · rintro ⟨c2, hc2, hc2u⟩
        rcases List.mem_append.1 hc2 with hmem | hnew
        · exact ⟨c2, hmem, hc2u⟩
        · simp at hnew
          subst hnew
          exact absurd hc2u.symm hu
  · intro a ha b hb
    rw [hls] at ha hb
    rcases List.mem_append.1 ha with ha2 | ha2 <;> rcases List.mem_append.1 hb with hb2 | hb2
    · exact hInv.sock_uniq a ha2 b hb2
    · simp at hb2
      subst hb2
      intro hsock
      exact absurd hsock (hfresh_sock a ha2)
    · simp at ha2
      subst ha2
      intro hsock
      exact absurd hsock.symm (hfresh_sock b hb2)
    · simp at ha2 hb2
      subst ha2
      subst hb2
      intro _
      rfl
  · intro a ha b hb
    rw [hls] at ha hb
    rcases List.mem_append.1 ha with ha2 | ha2 <;> rcases List.mem_append.1 hb with hb2 | hb2
    · exact hInv.user_uniq a ha2 b hb2
    · simp at hb2
      subst hb2
      intro huser
      exact absurd huser (hfresh_user a ha2)
    · simp at ha2
      subst ha2
      intro huser
      exact absurd huser.symm (hfresh_user b hb2)
    · simp at ha2 hb2
      subst ha2
      subst hb2
      intro _
      rfl
  · intro u r
    have hp : partsOf (handleConnection st ⟨sid, uid, uname⟩).1 r = partsOf st r := rfl
    have base := hInv.part_iff u r
    rw [hp, hcu, mapGet_mapSet]
    by_cases hu : u = uid
    · subst hu
      rw [if_pos rfl]
      have hnone : mapGet st.connectedUsers u = none := by
        cases hx : mapGet st.connectedUsers u with
        | none => rfl
        | some i =>
          have hsx : (mapGet st.connectedUsers u).isSome = true := by
            rw [hx]
            rfl
          obtain ⟨c2, hc2, hc2u⟩ := (hInv.reg_live u).1 hsx
          exact absurd hc2u (hfresh_user c2 hc2)
      constructor
      · intro hm
        obtain ⟨i, hi, -⟩ := base.1 hm
        rw [hnone] at hi
        cases hi
      · rintro ⟨i, hi, hcr⟩
        injection hi with h2
        rw [← h2] at hcr
        cases hcr
    · rw [if_neg hu]
      exact base
  · intro u info h
    rw [hcu, mapGet_mapSet] at h
    by_cases hu : u = uid
    · rw [if_pos hu] at h
      injection h with h2
      rw [← h2]
      intro hx
      cases hx
    · rw [if_neg hu] at h
      exact hInv.cur_truthy u info h

theorem ReachableSC_inv (verify : String → Option String)
    (findUser : String → Option UserRec) (st : SHState)
    (h : ReachableSC verify findUser st) : Inv st := by
  induction h with
  | init rooms => exact Inv_init rooms
  | @connect st0 a q sid hprev hguard ih =>
    unfold exec
    dsimp only
    cases hmw : setupMiddleware verify findUser a q with
    | none => exact ih
    | some user =>
      cases hfs : findSocket st0 sid with
      | some c => exact ih
      | none =>
        apply Inv_connect st0 sid user.id user.username ih
        · intro c2 h2
          exact hguard user hmw c2 h2
        · intro c2 h2
          have hf := List.find?_eq_none.1 hfs c2 h2
          simpa using hf
  | @join st0 sid rid hprev ih =>
    unfold exec
    dsimp only
    cases hfs : findSocket st0 sid with
    | none => exact ih
    | some c =>
      have hlive : c ∈ st0.liveSockets := List.mem_of_find?_eq_some hfs
      exact Inv_join st0 c rid ih hlive
  | @leave st0 sid rid hprev ih =>
    unfold exec
    dsimp only
    cases hfs : findSocket st0 sid with
    | none => exact ih
    | some c => exact Inv_leaveRoom st0 c rid ih
  | @send st0 sid rid cont persistOk hprev ih =>
    unfold exec
    dsimp only
    cases hfs : findSocket st0 sid with
    | none => exact ih
    | some c => exact Inv_send st0 c rid cont persistOk ih
  | @disconnect st0 sid hprev ih =>
    unfold exec
    dsimp only
    cases hfs : findSocket st0 sid with
    | none => exact ih
    | some c =>
      have hlive : c ∈ st0.liveSockets := List.mem_of_find?_eq_some hfs
      exact Inv_disconnect st0 c ih hlive

/-- C1 counterexample: after the trace connect(s1, u), join(s1, A),
connect(s2, u), join(s2, B) — whose final operation is a join-room — the user
u is still a member of RoomParticipants[A] while no live connection for u has
currentRoomId A, because the second connection of the same user overwrote the
userId-keyed registry entry. The claim is therefore false for sequences that
involve multiple concurrent connections of one user. -/
theorem c1_counterexample_multi_connection :
    ¬ membershipInvariantAt clobberState "u" "A" := by
  unfold membershipInvariantAt
  decide

/-- C1 amended: the central invariant does hold for every state reachable
under the restriction that each user has at most one concurrent live
connection — a connect step is only taken when no live socket already carries
the authenticated userId. After every connect, join-room, leave-room,
send-message and disconnect operation, a userId is in RoomParticipants[r]
exactly when some live connection of that user has currentRoomId r. -/
theorem c1_membership_invariant_single_connection (verify : String → Option String)
    (findUser : String → Option UserRec) (st : SHState)
    (h : ReachableSC verify findUser st) (u r : String) :
    membershipInvariantAt st u r := by
  have hInv := ReachableSC_inv verify findUser st h
  unfold membershipInvariantAt
  constructor
  · intro hm
    obtain ⟨info, hreg, hcr⟩ := (hInv.part_iff u r).1 hm
    have hsx : (mapGet st.connectedUsers u).isSome = true := by
      rw [hreg]
      rfl
    obtain ⟨c2, hc2, hc2u⟩ := (hInv.reg_live u).1 hsx
    refine ⟨c2, hc2, hc2u, ?_⟩
    unfold connCurrentRoomId
    rw [hc2u, hreg]
    exact hcr
  · rintro ⟨c2, hc2, hc2u, hconn⟩
    unfold connCurrentRoomId at hconn
    rw [hc2u] at hconn
    cases hreg : mapGet st.connectedUsers u with
    | none =>
      rw [hreg] at hconn
      cases hconn
    | some info =>
      rw [hreg] at hconn
      exact (hInv.part_iff u r).2 ⟨info, hreg, hconn⟩

/-- C1 witness: the invariant instance for user u and room A after the
single-connection trace connect(s1, u) followed by join(s1, A). -/
theorem c1_witness :
    membershipInvariantAt (run demoVerify demoFindUser demoRooms
      [Op.connect (some "tokU") none "s1", Op.joinRoom "s1" (some "A")]) "u" "A" :=
  c1_membership_invariant_single_connection demoVerify demoFindUser _
    (ReachableSC.join "s1" (some "A")
      (ReachableSC.connect (some "tokU") none "s1" (ReachableSC.init demoRooms)
        (fun user hmw c2 hc2 => absurd hc2 (List.not_mem_nil c2))))
    "u" "A"

/-- C2 counterexample: in the reachable state c2PreState the live connection s2
of user u has currentRoomId B; processing joinRoom(s2, C) — invoked while
currentRoomId is B, not null — applies the leaveRoom steps for B, yet the
connection ends the operation a member of both A (orphaned when the second
connection overwrote the userId-keyed registry entry) and C, not a member of C
only. -/
theorem c2_counterexample_multi_connection :
    findSocket c2PreState "s2" = some ⟨"s2", "u", "alice"⟩ ∧
      mapGet c2PreState.connectedUsers "u" = some ⟨"s2", "alice", some "B"⟩ ∧
      "u" ∈ partsOf (handleJoinRoom c2PreState ⟨"s2", "u", "alice"⟩ (some "C")).1 "A" ∧
      "u" ∈ partsOf (handleJoinRoom c2PreState ⟨"s2", "u", "alice"⟩ (some "C")).1 "C" := by
  decide

/-- C2 amended: a connection holds at most one currentRoomId by construction of
the registry entry, and in every reachable state in which each user has at most
one concurrent live connection, joining room B while the connection's
currentRoomId is A (A not null) applies the full leaveRoom steps for A before
the join to B takes effect: afterwards the registry points at B, the connection
is a member of B and of no other room, and the emitted events are exactly the
leaveRoom events for A followed by the join events for B. With multiple
concurrent connections of one user, orphaned memberships of other rooms can
survive the switch. -/
theorem c2_join_switch_single_connection (verify : String → Option String)
    (findUser : String → Option UserRec) (st : SHState)
    (hrs : ReachableSC verify findUser st) (c : Conn) (info : UserInfo)
    (A B : String) (room : RoomRec)
    (hlive : c ∈ st.liveSockets)
    (hreg : mapGet st.connectedUsers c.userId = some info)
    (hcur : info.currentRoom = some A) (hA : truthy A = true)
    (hB : truthy B = true) (hrm : Room.findById st.rooms B = some room)
    (hact : room.isActive = true) :
    (∃ info2, mapGet (handleJoinRoom st c (some B)).1.connectedUsers c.userId = some info2 ∧
        info2.currentRoom = some B) ∧
      (∀ r, c.userId ∈ partsOf (handleJoinRoom st c (some B)).1 r ↔ r = B) ∧
      (∃ ps, (handleJoinRoom st c (some B)).2 =
        (leaveRoom st c (some A)).2 ++
          [Event.userJoinedEv (Target.roomExcept B c.sockId) c.userId c.username,
           Event.participantsUpdateEv (Target.room B) B ps,
           Event.roomJoinedEv (Target.socket c.sockId) B room.name ps]) := by
  have hInv := ReachableSC_inv verify findUser st hrs
  have hmem : ∀ r, c.userId ∈ partsOf st r → r = A := by
    intro r hm
    obtain ⟨i, hi, hcr⟩ := (hInv.part_iff c.userId r).1 hm
    rw [hreg] at hi
    injection hi with h2
    subst h2
    rw [hcur] at hcr
    injection hcr with h3
    exact h3.symm
  exact handleJoinRoom_switch_core st c info A B room hreg hcur hA hB hrm hact hmem

/-- C2 witness: after the single-connection trace connect(s1, u), join(s1, A),
alice joins room B; she ends with currentRoom B, a member of exactly B, and the
leave events for A come before the join events for B. -/
theorem c2_witness_single_connection :
    (∃ info2, mapGet (handleJoinRoom
          (run demoVerify demoFindUser demoRooms
            [Op.connect (some "tokU") none "s1", Op.joinRoom "s1" (some "A")])
          ⟨"s1", "u", "alice"⟩ (some "B")).1.connectedUsers "u" = some info2 ∧
        info2.currentRoom = some "B") ∧
      (∀ r, "u" ∈ partsOf (handleJoinRoom
          (run demoVerify demoFindUser demoRooms
            [Op.connect (some "tokU") none "s1", Op.joinRoom "s1" (some "A")])
          ⟨"s1", "u", "alice"⟩ (some "B")).1 r ↔ r = "B") ∧
      (∃ ps, (handleJoinRoom
          (run demoVerify demoFindUser demoRooms
            [Op.connect (some "tokU") none "s1", Op.joinRoom "s1" (some "A")])
          ⟨"s1", "u", "alice"⟩ (some "B")).2 =
        (leaveRoom
          (run demoVerify demoFindUser demoRooms
            [Op.connect (some "tokU") none "s1", Op.joinRoom "s1" (some "A")])
          ⟨"s1", "u", "alice"⟩ (some "A")).2 ++
          [Event.userJoinedEv (Target.roomExcept "B" "s1") "u" "alice",
           Event.participantsUpdateEv (Target.room "B") "B" ps,
           Event.roomJoinedEv (Target.socket "s1") "B" "roomB" ps]) :=
  c2_join_switch_single_connection demoVerify demoFindUser _
    (ReachableSC.join "s1" (some "A")
      (ReachableSC.connect (some "tokU") none "s1" (ReachableSC.init demoRooms)
        (fun user hmw c2 hc2 => absurd hc2 (List.not_mem_nil c2))))
    ⟨"s1", "u", "alice"⟩ ⟨"s1", "alice", some "A"⟩ "A" "B" ⟨"B", "roomB", true, []⟩
    (by decide) (by decide) (by decide) (by decide) (by decide) (by decide) (by decide)

end ChatCore
